import Mathlib

/-!
Verification of the thinking-block reconciliation and tool-pairing engine of
the opencode-antigravity-auth plugin.

The source operates on dynamically-typed JSON-like values (parsed request
payloads).  We embed those values as the inductive type `Json` below and
translate the relevant functions of `src/plugin/request-helpers.ts`,
`src/plugin/compat.ts` and the tool-pairing helpers shallowly, keeping the
source's names and control flow.  JavaScript `undefined` (an absent object
property) is represented by `Option.none` of a field lookup; JavaScript
`null` is the explicit value `Json.null`.
-/

set_option maxHeartbeats 1000000

/-- A JSON-like dynamic value, the type all the transforms operate on. -/
inductive Json where
  | null : Json
  | bool : Bool → Json
  | num : Int → Json
  | str : String → Json
  | arr : List Json → Json
  | obj : List (String × Json) → Json
deriving Repr

mutual
/-- Structural (deep) equality of JSON values. -/
def Json.beq : Json → Json → Bool
  | .null, .null => true
  | .bool a, .bool b => a == b
  | .num a, .num b => a == b
  | .str a, .str b => a == b
  | .arr a, .arr b => Json.beqList a b
  | .obj a, .obj b => Json.beqFields a b
  | _, _ => false

def Json.beqList : List Json → List Json → Bool
  | [], [] => true
  | a :: as, b :: bs => Json.beq a b && Json.beqList as bs
  | _, _ => false

def Json.beqFields : List (String × Json) → List (String × Json) → Bool
  | [], [] => true
  | (k, v) :: as, (k', v') :: bs => k == k' && Json.beq v v' && Json.beqFields as bs
  | _, _ => false
end

mutual
theorem Json.beq_iff : ∀ (a b : Json), Json.beq a b = true ↔ a = b
  | .null, b => by cases b <;> simp [Json.beq]
  | .bool x, b => by cases b <;> simp [Json.beq]
  | .num x, b => by cases b <;> simp [Json.beq]
  | .str x, b => by cases b <;> simp [Json.beq]
  | .arr xs, b => by
      cases b <;> simp [Json.beq]
      exact Json.beqList_iff xs _
  | .obj fs, b => by
      cases b <;> simp [Json.beq]
      exact Json.beqFields_iff fs _

theorem Json.beqList_iff : ∀ (a b : List Json), Json.beqList a b = true ↔ a = b
  | [], b => by cases b <;> simp [Json.beqList]
  | x :: xs, [] => by simp [Json.beqList]
  | x :: xs, y :: ys => by
      simp [Json.beqList, Bool.and_eq_true, Json.beq_iff x y, Json.beqList_iff xs ys]

theorem Json.beqFields_iff :
    ∀ (a b : List (String × Json)), Json.beqFields a b = true ↔ a = b
  | [], b => by cases b <;> simp [Json.beqFields]
  | (k, v) :: xs, [] => by simp [Json.beqFields]
  | (k, v) :: xs, (k', v') :: ys => by
      simp [Json.beqFields, Bool.and_eq_true, Json.beq_iff v v',
        Json.beqFields_iff xs ys, and_assoc]
end

instance : DecidableEq Json := fun a b => decidable_of_iff _ (Json.beq_iff a b)

namespace Json

/-- Property lookup on an object field list (first binding wins; real JS
objects have unique keys). -/
def getFieldList : List (String × Json) → String → Option Json
  | [], _ => none
  | (k', v) :: fs, k => if k' = k then some v else getFieldList fs k

/-- JS property access `x.k`: `none` models `undefined` (also for every
non-object receiver reached through the guarded code paths). -/
def getField : Json → String → Option Json
  | .obj fs, k => getFieldList fs k
  | _, _ => none

/-- JS property assignment on a spread copy: replace the binding in place
when the key exists, append it otherwise. -/
def setFieldList : List (String × Json) → String → Json → List (String × Json)
  | [], k, v => [(k, v)]
  | (k', v') :: fs, k, v =>
      if k' = k then (k, v) :: fs else (k', v') :: setFieldList fs k v

/-- `{ ...o, k: v }` on an object; identity on non-objects (never reached on
non-objects in the guarded source paths). -/
def setField : Json → String → Json → Json
  | .obj fs, k, v => .obj (setFieldList fs k v)
  | j, _, _ => j

/-- Removing a property from a field list. -/
def eraseFieldList : List (String × Json) → String → List (String × Json)
  | [], _ => []
  | (k', v) :: fs, k =>
      if k' = k then eraseFieldList fs k else (k', v) :: eraseFieldList fs k

/-- Removing a property (used to state "the same block with the signature
field removed"). -/
def eraseField : Json → String → Json
  | .obj fs, k => .obj (eraseFieldList fs k)
  | j, _ => j

/-- JS truthiness of a value. -/
def truthy : Json → Bool
  | .null => false
  | .bool b => b
  | .num n => n != 0
  | .str s => s != ""
  | .arr _ => true
  | .obj _ => true

/-- JS `typeof x === "object"` (true for `null`, arrays and objects). -/
def isObjectType : Json → Bool
  | .null => true
  | .arr _ => true
  | .obj _ => true
  | _ => false

/-- `x && typeof x === "object"` — a non-null object (array or object). -/
def isNonNullObject : Json → Bool
  | .arr _ => true
  | .obj _ => true
  | _ => false

end Json

/-- JS nullish test on an optional property value (`undefined` or `null`). -/
def jsNullish : Option Json → Bool
  | none => true
  | some .null => true
  | _ => false

/-- JS nullish coalescing `a ?? b` on optional property values. -/
def jsCoalesce (a b : Option Json) : Option Json :=
  if jsNullish a then b else a

/-- The signature-cache lookup function `getCachedSignatureFn`. -/
abbrev CacheFn := String → String → Option String

/-- `isThinkingPart` (request-helpers.ts): a thinking/reasoning block in any
of the three wire syntaxes. -/
def isThinkingPart (part : Json) : Bool :=
  part.getField "type" == some (.str "thinking")
  || part.getField "type" == some (.str "redacted_thinking")
  || part.getField "type" == some (.str "reasoning")
  || (part.getField "thinking").isSome
  || part.getField "thought" == some (.bool true)

/-- `hasSignatureField` (request-helpers.ts). -/
def hasSignatureField (part : Json) : Bool :=
  (part.getField "signature").isSome || (part.getField "thoughtSignature").isSome

/-- `isToolBlock` (request-helpers.ts): tool_use / tool_result in any of the
recognized formats. -/
def isToolBlock (part : Json) : Bool :=
  part.getField "type" == some (.str "tool_use")
  || part.getField "type" == some (.str "tool_result")
  || (part.getField "tool_use_id").isSome
  || (part.getField "tool_call_id").isSome
  || (part.getField "tool_result").isSome
  || (part.getField "tool_use").isSome
  || (part.getField "toolUse").isSome
  || (part.getField "functionCall").isSome
  || (part.getField "functionResponse").isSome

/-- The per-item keep decision of `stripAllThinkingBlocks`. -/
def stripKeep (item : Json) : Bool :=
  if !(item.truthy && item.isObjectType) then true
  else if isToolBlock item then true
  else if isThinkingPart item then false
  else if hasSignatureField item then false
  else true

/-- `stripAllThinkingBlocks` (request-helpers.ts): the signature-strict
default policy for Claude models. -/
def stripAllThinkingBlocks (contentArray : List Json) : List Json :=
  contentArray.filter stripKeep

/-- The signature slot the source consults: `thoughtSignature` for
Gemini-style `thought: true` blocks, `signature` otherwise. -/
def getSignatureRaw (part : Json) : Option Json :=
  if part.getField "thought" == some (.bool true) then
    part.getField "thoughtSignature"
  else
    part.getField "signature"

/-- `hasValidSignature` (request-helpers.ts): a string signature of length
at least 50. -/
def hasValidSignature (part : Json) : Bool :=
  match getSignatureRaw part with
  | some (.str s) => s.length ≥ 50
  | _ => false

/-- `getSignature` (request-helpers.ts). -/
def getSignature (part : Json) : Option String :=
  match getSignatureRaw part with
  | some (.str s) => some s
  | _ => none

/-- `getThinkingText` (request-helpers.ts): extract the thinking text,
unwrapping one level of nesting. -/
def getThinkingText (part : Json) : String :=
  match part.getField "text" with
  | some (.str s) => s
  | t =>
    match part.getField "thinking" with
    | some (.str s) => s
    | th =>
      let fromText : Option String :=
        match t with
        | some j =>
            if j.isNonNullObject then
              match j.getField "text" with
              | some (.str s) => some s
              | _ => none
            else none
        | none => none
      match fromText with
      | some s => s
      | none =>
        match th with
        | some j =>
            if j.isNonNullObject then
              match jsCoalesce (j.getField "text") (j.getField "thinking") with
              | some (.str s) => s
              | _ => ""
            else ""
        | none => ""

/-- `isOurCachedSignature` (request-helpers.ts): trust is literal equality
with the per-session cached signature for the block's exact text.  The JS
guards `!sessionId` and `!partSignature` are truthiness tests, so an
empty-string session id and an empty-string signature both fail. -/
def isOurCachedSignature (part : Json) (sessionId : Option String)
    (getCachedSignatureFn : Option CacheFn) : Bool :=
  match sessionId, getCachedSignatureFn with
  | some sid, some fn =>
      if sid = "" then false
      else
        let text := getThinkingText part
        if text = "" then false
        else
          match getSignature part with
          | none => false
          | some partSignature =>
              if partSignature = "" then false
              else fn sid text == some partSignature
  | _, _ => false

/-- `removeTrailingThinkingBlocks`'s loop, expressed on the reversed block
list: pop unverified thinking blocks until a verified one (or a
non-thinking block) is at the end. -/
def rtLoop (sessionId : Option String) (fn : Option CacheFn) : List Json → List Json
  | [] => []
  | p :: rest =>
      if isThinkingPart p then
        let isValid :=
          match sessionId, fn with
          | some sid, some f =>
              if sid = "" then hasValidSignature p
              else isOurCachedSignature p (some sid) (some f)
          | _, _ => hasValidSignature p
        if isValid then p :: rest else rtLoop sessionId fn rest
      else p :: rest

/-- `removeTrailingThinkingBlocks` (request-helpers.ts). -/
def removeTrailingThinkingBlocks (contentArray : List Json)
    (sessionId : Option String) (fn : Option CacheFn) : List Json :=
  (rtLoop sessionId fn contentArray.reverse).reverse

mutual
/-- `stripCacheControlRecursively` (request-helpers.ts): drop
`cache_control` and `providerOptions` keys everywhere. -/
def stripCacheControlRecursively : Json → Json
  | .null => .null
  | .bool b => .bool b
  | .num n => .num n
  | .str s => .str s
  | .arr xs => .arr (stripCCList xs)
  | .obj fs => .obj (stripCCFields fs)

def stripCCList : List Json → List Json
  | [] => []
  | x :: xs => stripCacheControlRecursively x :: stripCCList xs

def stripCCFields : List (String × Json) → List (String × Json)
  | [] => []
  | (k, v) :: fs =>
      if k = "cache_control" ∨ k = "providerOptions" then stripCCFields fs
      else (k, stripCacheControlRecursively v) :: stripCCFields fs
end

/-- An optional field of a rebuilt sanitized object. -/
def optField (k : String) (v : Option Json) : List (String × Json) :=
  match v with
  | none => []
  | some j => [(k, j)]

/-- The text unwrapping used by the Gemini and reasoning branches of
`sanitizeThinkingPart`: `{text: {text: "s", ...}, ...}` becomes `"s"`. -/
def unwrapTextField (t : Json) : Json :=
  if t.isNonNullObject then
    match t.getField "text" with
    | some (.str s) => .str s
    | _ => t
  else t

/-- The unwrapping of a non-null-object thinking payload in the Anthropic
branch of `sanitizeThinkingPart` (`thinkingContent.text ?? thinkingContent.thinking`,
defaulting to the empty string). -/
def unwrapThinkingContent (v : Json) : Json :=
  if v.isNonNullObject then
    match jsCoalesce (v.getField "text") (v.getField "thinking") with
    | some (.str s) => .str s
    | _ => .str ""
  else v

/-- `sanitizeThinkingPart` (request-helpers.ts): rewrite a thinking block to
its minimal canonical shape; unrecognized blocks fall back to
`stripCacheControlRecursively`. -/
def sanitizeThinkingPart (part : Json) : Json :=
  if part.getField "thought" == some (.bool true) then
    .obj ([("thought", .bool true)]
      ++ optField "text" ((part.getField "text").map unwrapTextField)
      ++ optField "thoughtSignature" (part.getField "thoughtSignature"))
  else if part.getField "type" == some (.str "thinking")
      || part.getField "type" == some (.str "redacted_thinking")
      || (part.getField "thinking").isSome then
    let ty : String :=
      if part.getField "type" == some (.str "redacted_thinking")
      then "redacted_thinking" else "thinking"
    let tc := jsCoalesce (part.getField "thinking") (part.getField "text")
    .obj ([("type", .str ty)]
      ++ optField "thinking" (tc.map unwrapThinkingContent)
      ++ optField "signature" (part.getField "signature"))
  else if part.getField "type" == some (.str "reasoning") then
    .obj ([("type", .str "reasoning")]
      ++ optField "text" ((part.getField "text").map unwrapTextField)
      ++ optField "signature" (part.getField "signature"))
  else
    stripCacheControlRecursively part

/-- The signature-restoration write of `filterContentArray`:
`restoredPart = { ...item }` followed by assigning the cached signature to
the block's signature slot. -/
def restoreSig (item : Json) (cached : String) : Json :=
  if item.getField "thought" == some (.bool true) then
    item.setField "thoughtSignature" (.str cached)
  else
    item.setField "signature" (.str cached)

/-- The per-item decision of `filterContentArray`'s trust-based loop:
`some` = pushed (possibly sanitized / signature-restored), `none` =
dropped. -/
def trustFilterItem (sessionId : Option String) (fn : Option CacheFn)
    (item : Json) : Option Json :=
  if !(item.truthy && item.isObjectType) then some item
  else if isToolBlock item then some item
  else if !isThinkingPart item && !hasSignatureField item then some item
  else if isOurCachedSignature item sessionId fn then
    some (sanitizeThinkingPart item)
  else
    match sessionId, fn with
    | some sid, some f =>
        if sid = "" then none
        else
          let text := getThinkingText item
          if text = "" then none
          else
            match f sid text with
            | some cached =>
                if cached ≠ "" ∧ 50 ≤ cached.length then
                  some (sanitizeThinkingPart (restoreSig item cached))
                else none
            | none => none
    | _, _ => none

/-- `filterContentArray` (request-helpers.ts).  `keepThinking` models the
`KEEP_THINKING_BLOCKS` constant (the `OPENCODE_ANTIGRAVITY_KEEP_THINKING=1`
override, defined in the repo's constants module outside src/), passed
explicitly. -/
def filterContentArray (keepThinking : Bool) (contentArray : List Json)
    (sessionId : Option String) (fn : Option CacheFn) (isClaudeModel : Bool) :
    List Json :=
  if isClaudeModel && !keepThinking then stripAllThinkingBlocks contentArray
  else contentArray.filterMap (trustFilterItem sessionId fn)

/-- One turn of `filterUnsignedThinkingBlocks` (request-helpers.ts):
filter a `parts` array (Gemini shape) or a `content` array (Anthropic
shape), trimming trailing thinking blocks of producer turns for non-Claude
models. -/
def filterTurn (keepThinking : Bool) (sessionId : Option String)
    (fn : Option CacheFn) (isClaudeModel : Bool) (content : Json) : Json :=
  if !(content.truthy && content.isObjectType) then content
  else
    match content.getField "parts" with
    | some (.arr parts) =>
        let filteredParts := filterContentArray keepThinking parts sessionId fn isClaudeModel
        let trimmedParts :=
          if content.getField "role" == some (.str "model") && !isClaudeModel
          then removeTrailingThinkingBlocks filteredParts sessionId fn
          else filteredParts
        content.setField "parts" (.arr trimmedParts)
    | _ =>
      match content.getField "content" with
      | some (.arr cs) =>
          let filteredContent := filterContentArray keepThinking cs sessionId fn isClaudeModel
          let trimmedContent :=
            if content.getField "role" == some (.str "assistant") && !isClaudeModel
            then removeTrailingThinkingBlocks filteredContent sessionId fn
            else filteredContent
          content.setField "content" (.arr trimmedContent)
      | _ => content

/-- `filterUnsignedThinkingBlocks` (request-helpers.ts). -/
def filterUnsignedThinkingBlocks (keepThinking : Bool) (contents : List Json)
    (sessionId : Option String) (fn : Option CacheFn) (isClaudeModel : Bool) :
    List Json :=
  contents.map (filterTurn keepThinking sessionId fn isClaudeModel)

/-- One message of `filterMessagesThinkingBlocks` (request-helpers.ts). -/
def filterMessageTurn (keepThinking : Bool) (sessionId : Option String)
    (fn : Option CacheFn) (isClaudeModel : Bool) (message : Json) : Json :=
  if !(message.truthy && message.isObjectType) then message
  else
    match message.getField "content" with
    | some (.arr cs) =>
        let filteredContent := filterContentArray keepThinking cs sessionId fn isClaudeModel
        let trimmedContent :=
          if message.getField "role" == some (.str "assistant") && !isClaudeModel
          then removeTrailingThinkingBlocks filteredContent sessionId fn
          else filteredContent
        message.setField "content" (.arr trimmedContent)
    | _ => message

/-- `filterMessagesThinkingBlocks` (request-helpers.ts). -/
def filterMessagesThinkingBlocks (keepThinking : Bool) (messages : List Json)
    (sessionId : Option String) (fn : Option CacheFn) (isClaudeModel : Bool) :
    List Json :=
  messages.map (filterMessageTurn keepThinking sessionId fn isClaudeModel)

/-- The block array a turn carries: the `parts` array when present,
otherwise the `content` array — the selection order of
`filterUnsignedThinkingBlocks`. -/
def selectedBlocks (content : Json) : List Json :=
  match content.getField "parts" with
  | some (.arr parts) => parts
  | _ =>
    match content.getField "content" with
    | some (.arr cs) => cs
    | _ => []

/-!  ## Exception-aware model of the trailing-trim path

In JavaScript, reading a property of `null` throws a `TypeError`.  Every
block-level property access in the filtering pipeline is guarded by a
`typeof`-object check except the `isThinkingPart(result[result.length - 1])`
test inside `removeTrailingThinkingBlocks`, which can receive a literal
`null` array element.  The `E`-suffixed functions model exactly that
behaviour with `Except Unit`, `.error ()` standing for a thrown TypeError.
-/

/-- `isThinkingPart` as executed by the unguarded call site: field access on
`null` throws. -/
def isThinkingPartE (part : Json) : Except Unit Bool :=
  match part with
  | .null => .error ()
  | p => .ok (isThinkingPart p)

/-- The loop of `removeTrailingThinkingBlocks` with the JS throwing
semantics, on the reversed block list. -/
def rtLoopE (sessionId : Option String) (fn : Option CacheFn) :
    List Json → Except Unit (List Json)
  | [] => .ok []
  | p :: rest => do
      let isThinking ← isThinkingPartE p
      if isThinking then
        let isValid :=
          match sessionId, fn with
          | some sid, some f =>
              if sid = "" then hasValidSignature p
              else isOurCachedSignature p (some sid) (some f)
          | _, _ => hasValidSignature p
        if isValid then .ok (p :: rest) else rtLoopE sessionId fn rest
      else .ok (p :: rest)

/-- `removeTrailingThinkingBlocks` with the JS throwing semantics. -/
def removeTrailingThinkingBlocksE (contentArray : List Json)
    (sessionId : Option String) (fn : Option CacheFn) : Except Unit (List Json) :=
  (rtLoopE sessionId fn contentArray.reverse).map List.reverse

/-- One message of `filterMessagesThinkingBlocks` with the JS throwing
semantics (the only unguarded access is inside the trailing trim). -/
def filterMessageTurnE (keepThinking : Bool) (sessionId : Option String)
    (fn : Option CacheFn) (isClaudeModel : Bool) (message : Json) :
    Except Unit Json :=
  if !(message.truthy && message.isObjectType) then .ok message
  else
    match message.getField "content" with
    | some (.arr cs) =>
        let filteredContent := filterContentArray keepThinking cs sessionId fn isClaudeModel
        if message.getField "role" == some (.str "assistant") && !isClaudeModel then
          (removeTrailingThinkingBlocksE filteredContent sessionId fn).map
            (fun t => message.setField "content" (.arr t))
        else .ok (message.setField "content" (.arr filteredContent))
    | _ => .ok message

/-- `filterMessagesThinkingBlocks` with the JS throwing semantics. -/
def filterMessagesThinkingBlocksE (keepThinking : Bool) (messages : List Json)
    (sessionId : Option String) (fn : Option CacheFn) (isClaudeModel : Bool) :
    Except Unit (List Json) :=
  messages.mapM (filterMessageTurnE keepThinking sessionId fn isClaudeModel)

/-!  ## compat.ts — DCP workaround -/

/-- `DCP_SYNTHETIC_REDACTED_THINKING` (compat.ts). -/
def DCP_SYNTHETIC_REDACTED_THINKING : Json :=
  .obj [("type", .str "redacted_thinking"), ("data", .str "W0RDUF0=")]

/-- `isThinkingBlock` (compat.ts). -/
def isThinkingBlock (block : Json) : Bool :=
  if !(block.truthy && block.isObjectType) then false
  else block.getField "type" == some (.str "thinking")
    || block.getField "type" == some (.str "redacted_thinking")

/-- `ensureThinkingBlockInContent` (compat.ts). -/
def ensureThinkingBlockInContent (content : List Json) : List Json :=
  match content with
  | [] => []
  | first :: _ =>
      if isThinkingBlock first then content
      else DCP_SYNTHETIC_REDACTED_THINKING :: content

/-- The `content`-before-`parts` truthiness-based key selection of
`fixDcpSyntheticMessages`. -/
def dcpContentKey (msg : Json) : Option String :=
  if (msg.getField "content").elim false Json.truthy then some "content"
  else if (msg.getField "parts").elim false Json.truthy then some "parts"
  else none

/-- One message of `fixDcpSyntheticMessages` (compat.ts).  The source
compares `fixedContent === contentArray` by reference;
`ensureThinkingBlockInContent` returns its argument exactly when it is
empty or already starts with a thinking block, which is the condition used
here. -/
def fixDcpMessage (message : Json) : Json :=
  if !(message.truthy && message.isObjectType) then message
  else if message.getField "role" != some (.str "assistant") then message
  else
    match dcpContentKey message with
    | none => message
    | some key =>
      match message.getField key with
      | some (.arr contentArray) =>
          match contentArray with
          | [] => message
          | first :: _ =>
              if isThinkingBlock first then message
              else message.setField key (.arr (DCP_SYNTHETIC_REDACTED_THINKING :: contentArray))
      | _ => message

/-- `fixDcpSyntheticMessages` (compat.ts). -/
def fixDcpSyntheticMessages (messages : List Json) : List Json :=
  messages.map fixDcpMessage

/-!  ## Tool-call pairing validator and repairer

The implementations of `findOrphanedToolUseIds`, `fixClaudeToolPairing` and
`validateAndFixClaudeToolPairing` are exercised by the repository's test
suite but their defining module is not part of the provided sources, so the
definitions below are reconstructed from the specification (§4.5, §8) and
the behaviour pinned down by the tests.
-/

/-- The `content` block array of an Anthropic-style message (empty for
string content and other shapes). -/
def contentBlocks (message : Json) : List Json :=
  match message.getField "content" with
  | some (.arr cs) => cs
  | _ => []

/-- The call identifier of a `{type: "tool_use", id}` block. -/
def useIdOfBlock (b : Json) : Option String :=
  if b.getField "type" == some (.str "tool_use") then
    match b.getField "id" with
    | some (.str s) => some s
    | _ => none
  else none

/-- The correlation identifier of a `{type: "tool_result", tool_use_id}`
block. -/
def resultIdOfBlock (b : Json) : Option String :=
  if b.getField "type" == some (.str "tool_result") then
    match b.getField "tool_use_id" with
    | some (.str s) => some s
    | _ => none
  else none

/-- Modelled from the spec: the tool-call identifiers issued by one message
(`{type: "tool_use", id}` blocks); the defining module of
`findOrphanedToolUseIds` is absent from src/. -/
def msgToolUseIds (message : Json) : List String :=
  (contentBlocks message).filterMap useIdOfBlock

/-- Modelled from the spec: the tool-result correlation identifiers of one
message (`{type: "tool_result", tool_use_id}` blocks). -/
def msgToolResultIds (message : Json) : List String :=
  (contentBlocks message).filterMap resultIdOfBlock

/-- All tool-call identifiers of a conversation. -/
def allToolUseIds (messages : List Json) : List String :=
  messages.flatMap msgToolUseIds

/-- All tool-result correlation identifiers of a conversation. -/
def allToolResultIds (messages : List Json) : List String :=
  messages.flatMap msgToolResultIds

/-- Modelled from the spec: `findOrphanedToolUseIds` — the orphaned-calls
component of `validate` (§4.5): call identifiers with no matching result
anywhere in the conversation. -/
def findOrphanedToolUseIds (messages : List Json) : List String :=
  (allToolUseIds messages).filter fun id => !(allToolResultIds messages).contains id

/-- Modelled from the spec: the `orphanedResults` component of `validate`
(§4.5): result correlation identifiers with no originating call. -/
def findOrphanedToolResultIds (messages : List Json) : List String :=
  (allToolResultIds messages).filter fun id => !(allToolUseIds messages).contains id

/-- Modelled from the spec: the synthesized error tool-result with the fixed
"tool response unavailable" payload (§4.5 step 1, §8 scenario 2). -/
def mkPlaceholderResult (id : String) : Json :=
  .obj [("type", .str "tool_result"), ("tool_use_id", .str id),
        ("content", .str "tool response unavailable"), ("is_error", .bool true)]

/-- Modelled from the spec: a synthesized consumer turn carrying placeholder
results (§4.5 step 1: "creating one if absent"). -/
def mkUserMessage (blocks : List Json) : Json :=
  .obj [("role", .str "user"), ("content", .arr blocks)]

/-- Modelled from the spec: `fixClaudeToolPairing`'s walk — for every
message containing orphaned tool calls, inject the synthesized error results
at the front of the next consumer turn's content, creating a consumer turn
when the next message cannot receive them. -/
def fixLoop (orphans : List String) : List Json → List Json
  | [] => []
  | m :: rest =>
      let ids := (msgToolUseIds m).filter (fun id => orphans.contains id)
      if ids.isEmpty then m :: fixLoop orphans rest
      else
        let placeholders := ids.map mkPlaceholderResult
        match rest with
        | [] => [m, mkUserMessage placeholders]
        | next :: rest' =>
            if next.getField "role" == some (.str "user") then
              match next.getField "content" with
              | some (.arr cs) =>
                  m :: fixLoop orphans (next.setField "content" (.arr (placeholders ++ cs)) :: rest')
              | _ => m :: mkUserMessage placeholders :: fixLoop orphans (next :: rest')
            else m :: mkUserMessage placeholders :: fixLoop orphans (next :: rest')
termination_by msgs => msgs.length
decreasing_by all_goals simp +arith [List.length_cons]

/-- Modelled from the spec: `fixClaudeToolPairing` (§4.5 repair step 1). -/
def fixClaudeToolPairing (messages : List Json) : List Json :=
  fixLoop (findOrphanedToolUseIds messages) messages

/-- Modelled from the spec: `validateAndFixClaudeToolPairing` — validate,
and repair when orphans are found. -/
def validateAndFixClaudeToolPairing (messages : List Json) : List Json :=
  if (findOrphanedToolUseIds messages).isEmpty then messages
  else fixClaudeToolPairing messages

/-!  ## Basic lemmas about the JSON embedding -/

namespace Json

@[simp] theorem getFieldList_nil (k : String) : getFieldList [] k = none := rfl

@[simp] theorem getFieldList_cons (k' : String) (v : Json) (fs : List (String × Json))
    (k : String) :
    getFieldList ((k', v) :: fs) k = if k' = k then some v else getFieldList fs k := rfl

theorem getFieldList_setFieldList_self (fs : List (String × Json)) (k : String) (v : Json) :
    getFieldList (setFieldList fs k v) k = some v := by
  induction fs with
  | nil => simp [setFieldList]
  | cons p fs ih =>
      obtain ⟨k', v'⟩ := p
      by_cases h : k' = k <;> simp [setFieldList, h, ih]

theorem getFieldList_setFieldList_ne (fs : List (String × Json)) (k : String) (v : Json)
    (k'' : String) (hne : k ≠ k'') :
    getFieldList (setFieldList fs k v) k'' = getFieldList fs k'' := by
  induction fs with
  | nil => simp [setFieldList, hne]
  | cons p fs ih =>
      obtain ⟨k', v'⟩ := p
      by_cases h : k' = k
      · subst h
        simp [setFieldList, hne]
      · simp [setFieldList, h, ih]

theorem getField_setField_self (fs : List (String × Json)) (k : String) (v : Json) :
    ((Json.obj fs).setField k v).getField k = some v := by
  simp [setField, getField, getFieldList_setFieldList_self]

theorem getField_setField_ne (fs : List (String × Json)) (k : String) (v : Json)
    (k'' : String) (hne : k ≠ k'') :
    ((Json.obj fs).setField k v).getField k'' = (Json.obj fs).getField k'' := by
  simp [setField, getField, getFieldList_setFieldList_ne _ _ _ _ hne]

theorem getField_eraseField_self (fs : List (String × Json)) (k : String) :
    ((Json.obj fs).eraseField k).getField k = none := by
  simp only [eraseField, getField]
  induction fs with
  | nil => simp [eraseFieldList]
  | cons p fs ih =>
      obtain ⟨k', v'⟩ := p
      by_cases h : k' = k <;> simp [eraseFieldList, h, ih]

theorem getField_eraseField_ne (fs : List (String × Json)) (k k'' : String)
    (hne : k ≠ k'') :
    ((Json.obj fs).eraseField k).getField k'' = (Json.obj fs).getField k'' := by
  simp only [eraseField, getField]
  induction fs with
  | nil => simp [eraseFieldList]
  | cons p fs ih =>
      obtain ⟨k', v'⟩ := p
      by_cases h : k' = k
      · subst h
        simp [eraseFieldList, hne, ih]
      · by_cases h2 : k' = k'' <;> simp [eraseFieldList, h, h2, ih, Ne.symm hne]

/-- A value with a present field is an object. -/
theorem exists_obj_of_getField_isSome {j : Json} {k : String}
    (h : (j.getField k).isSome) : ∃ fs, j = .obj fs := by
  cases j <;> simp [getField] at h ⊢

@[simp] theorem truthy_obj (fs : List (String × Json)) : (Json.obj fs).truthy = true := rfl
@[simp] theorem isObjectType_obj (fs : List (String × Json)) :
    (Json.obj fs).isObjectType = true := rfl
@[simp] theorem isNonNullObject_obj (fs : List (String × Json)) :
    (Json.obj fs).isNonNullObject = true := rfl

end Json

/-- A thinking-shaped part is an object. -/
theorem isThinkingPart_obj {p : Json} (h : isThinkingPart p = true) :
    ∃ fs, p = .obj fs := by
  cases p <;> simp_all [isThinkingPart, Json.getField]

/-- A signature-carrying part is an object. -/
theorem hasSignatureField_obj {p : Json} (h : hasSignatureField p = true) :
    ∃ fs, p = .obj fs := by
  cases p <;> simp_all [hasSignatureField, Json.getField]

/-!  ## C4 — trust is exact cache equality -/

/-- C4 (amended): `isOurCachedSignature` returns true iff a **non-empty**
session id and a lookup function are supplied, the block's extracted
thinking text is non-empty, the block carries a **non-empty** signature
string, and the cache lookup for that exact text is literally equal to
that signature.  In particular an absent session id makes it false for
every block, and an empty-string signature is rejected even when the cache
lookup returns the empty string (the JS `!partSignature` truthiness
guard). -/
theorem isOurCachedSignature_iff (part : Json) (sessionId : Option String)
    (fn : Option CacheFn) :
    isOurCachedSignature part sessionId fn = true ↔
      ∃ sid f, sessionId = some sid ∧ fn = some f ∧ sid ≠ "" ∧
        getThinkingText part ≠ "" ∧
        ∃ sig, getSignature part = some sig ∧ sig ≠ "" ∧
          f sid (getThinkingText part) = some sig := by
  cases sessionId with
  | none => simp [isOurCachedSignature]
  | some sid =>
    cases fn with
    | none => simp [isOurCachedSignature]
    | some f =>
      by_cases hsid : sid = ""
      · simp [isOurCachedSignature, hsid]
      · by_cases htext : getThinkingText part = ""
        · simp [isOurCachedSignature, hsid, htext]
        · cases hsig : getSignature part with
          | none => simp [isOurCachedSignature, hsid, htext, hsig]
          | some sig =>
              by_cases hemp : sig = ""
              · subst hemp
                simp only [isOurCachedSignature, if_neg hsid, if_neg htext, hsig,
                  eq_self_iff_true, if_true, Bool.false_eq_true, false_iff]
                rintro ⟨sid', f', h1, h2, -, -, sig', hs, hne, -⟩
                have heq : "" = sig' := Option.some_injective _ hs
                exact hne heq.symm
              · simp only [isOurCachedSignature, if_neg hsid, if_neg htext, hsig,
                  if_neg hemp, beq_iff_eq]
                constructor
                · intro h
                  exact ⟨sid, f, rfl, rfl, hsid, htext, sig, rfl, hemp, h⟩
                · rintro ⟨sid', f', h1, h2, -, -, sig', hs, -, hl⟩
                  cases h1; cases h2
                  obtain rfl : sig = sig' := Option.some_injective _ hs
                  exact hl

/-- C4 counterexample: with the session id supplied as the empty string and
a cache lookup that literally returns the block's signature for its exact
non-empty text, the function still returns false (the JS guard treats `""`
as absent), contradicting the claim's "if and only if ... supplied". -/
theorem isOurCachedSignature_empty_sid_counterexample :
    isOurCachedSignature
        (Json.obj [("type", Json.str "thinking"), ("thinking", Json.str "t"),
                   ("signature", Json.str "sig")])
        (some "") (some fun _ _ => some "sig") = false
    ∧ getThinkingText
        (Json.obj [("type", Json.str "thinking"), ("thinking", Json.str "t"),
                   ("signature", Json.str "sig")]) = "t"
    ∧ getSignature
        (Json.obj [("type", Json.str "thinking"), ("thinking", Json.str "t"),
                   ("signature", Json.str "sig")]) = some "sig"
    ∧ (fun _ _ => some "sig" : CacheFn) "" "t" = some "sig" := by
  refine ⟨rfl, by decide, by decide, rfl⟩

/-!  ## C1 — strip completeness under the signature-strict default policy -/

/-- A kept item that is thinking-shaped or signature-carrying must be a tool
block. -/
theorem stripKeep_tool_of_thinking {p : Json}
    (hkeep : stripKeep p = true)
    (h : isThinkingPart p = true ∨ hasSignatureField p = true) :
    isToolBlock p = true := by
  have hobj : ∃ fs, p = .obj fs := by
    cases h with
    | inl h => exact isThinkingPart_obj h
    | inr h => exact hasSignatureField_obj h
  obtain ⟨fs, rfl⟩ := hobj
  by_cases ht : isToolBlock (Json.obj fs) = true
  · exact ht
  · exfalso
    rw [stripKeep] at hkeep
    simp only [Json.truthy_obj, Json.isObjectType_obj, Bool.and_self, Bool.not_true,
      Bool.false_eq_true, if_false, ht, if_false] at hkeep
    rcases h with h | h
    · rw [if_pos h] at hkeep
      exact Bool.false_ne_true hkeep
    · by_cases h2 : isThinkingPart (Json.obj fs) = true
      · rw [if_pos h2] at hkeep
        exact Bool.false_ne_true hkeep
      · rw [if_neg h2, if_pos h] at hkeep
        exact Bool.false_ne_true hkeep

/-- Tool blocks and non-object entries are always kept. -/
theorem stripKeep_of_tool_or_nonobject {p : Json}
    (h : isToolBlock p = true ∨ (p.truthy && p.isObjectType) = false) :
    stripKeep p = true := by
  rw [stripKeep]
  rcases h with h | h
  · by_cases h0 : (!(p.truthy && p.isObjectType)) = true
    · rw [if_pos h0]
    · rw [if_neg h0, if_pos h]
  · rw [if_pos]
    rw [h]
    rfl

@[simp] theorem Json.getField_setField_parts_parts (fs : List (String × Json)) (v : Json) :
    ((Json.obj fs).setField "parts" v).getField "parts" = some v :=
  Json.getField_setField_self fs _ v

@[simp] theorem Json.getField_setField_content_content (fs : List (String × Json)) (v : Json) :
    ((Json.obj fs).setField "content" v).getField "content" = some v :=
  Json.getField_setField_self fs _ v

@[simp] theorem Json.getField_setField_content_parts (fs : List (String × Json)) (v : Json) :
    ((Json.obj fs).setField "content" v).getField "parts" = (Json.obj fs).getField "parts" :=
  Json.getField_setField_ne fs _ v _ (by decide)

@[simp] theorem Json.getField_setField_parts_content (fs : List (String × Json)) (v : Json) :
    ((Json.obj fs).setField "parts" v).getField "content" = (Json.obj fs).getField "content" :=
  Json.getField_setField_ne fs _ v _ (by decide)

@[simp] theorem Json.getField_setField_parts_role (fs : List (String × Json)) (v : Json) :
    ((Json.obj fs).setField "parts" v).getField "role" = (Json.obj fs).getField "role" :=
  Json.getField_setField_ne fs _ v _ (by decide)

@[simp] theorem Json.getField_setField_content_role (fs : List (String × Json)) (v : Json) :
    ((Json.obj fs).setField "content" v).getField "role" = (Json.obj fs).getField "role" :=
  Json.getField_setField_ne fs _ v _ (by decide)

/-- `filterTurn` under the Claude default policy replaces the selected block
array by its stripped version. -/
theorem selectedBlocks_filterTurn_claude (sid : Option String) (fn : Option CacheFn)
    (c : Json) :
    selectedBlocks (filterTurn false sid fn true c) =
      stripAllThinkingBlocks (selectedBlocks c) := by
  rw [filterTurn]
  by_cases hobj : (!(c.truthy && c.isObjectType)) = true
  · rw [if_pos hobj]
    cases c <;> simp_all [selectedBlocks, Json.getField, stripAllThinkingBlocks,
      Json.truthy, Json.isObjectType]
  · rw [if_neg hobj]
    cases c with
    | null => simp [Json.truthy] at hobj
    | bool b => simp [Json.isObjectType] at hobj
    | num n => simp [Json.isObjectType] at hobj
    | str s => simp [Json.isObjectType] at hobj
    | arr xs => simp [selectedBlocks, Json.getField, stripAllThinkingBlocks]
    | obj fs =>
        rcases hparts : (Json.obj fs).getField "parts" with _ | (_ | b | n | s | ps | fs2)
        case neg.obj.some.arr =>
          simp only [hparts, Bool.not_true, Bool.and_false, Bool.false_eq_true, if_false,
            Bool.and_eq_true]
          rw [selectedBlocks, Json.getField_setField_parts_parts, selectedBlocks, hparts]
          simp [filterContentArray]
        all_goals
          rcases hcontent : (Json.obj fs).getField "content" with _ | (_ | b2 | n2 | s2 | cs | fs3) <;>
            simp [selectedBlocks, hparts, hcontent, filterContentArray,
              stripAllThinkingBlocks]

/-- C1: strip completeness under the signature-strict default policy.  With
`isClaudeModel = true` and the keep-thinking override disabled, the output
of `filterUnsignedThinkingBlocks` has the same turn count; every block of
every turn's output block array that is thinking-shaped or carries a
signature field is a tool block (i.e. zero blocks *classified* as
thinking — tool shape takes classification precedence — and zero non-tool
signed blocks remain); and every tool block and every non-object entry of
an input turn's block array is kept. -/
theorem filterUnsignedThinkingBlocks_claude_strip_complete
    (contents : List Json) (sid : Option String) (fn : Option CacheFn) :
    (filterUnsignedThinkingBlocks false contents sid fn true).length = contents.length
    ∧ (∀ c ∈ filterUnsignedThinkingBlocks false contents sid fn true,
        ∀ p ∈ selectedBlocks c,
          (isThinkingPart p = true ∨ hasSignatureField p = true) →
          isToolBlock p = true)
    ∧ (∀ i (h : i < contents.length)
        (h' : i < (filterUnsignedThinkingBlocks false contents sid fn true).length),
        ∀ p ∈ selectedBlocks (contents.get ⟨i, h⟩),
          (isToolBlock p = true ∨ (p.truthy && p.isObjectType) = false) →
          p ∈ selectedBlocks
            ((filterUnsignedThinkingBlocks false contents sid fn true).get ⟨i, h'⟩)) := by
  refine ⟨by simp [filterUnsignedThinkingBlocks], ?_, ?_⟩
  · intro c hc p hp hshape
    rw [filterUnsignedThinkingBlocks, List.mem_map] at hc
    obtain ⟨c0, -, rfl⟩ := hc
    rw [selectedBlocks_filterTurn_claude] at hp
    rw [stripAllThinkingBlocks, List.mem_filter] at hp
    exact stripKeep_tool_of_thinking hp.2 hshape
  · intro i h h' p hp hkeep
    have hmap : (filterUnsignedThinkingBlocks false contents sid fn true).get ⟨i, h'⟩
        = filterTurn false sid fn true (contents.get ⟨i, h⟩) := by
      simp [filterUnsignedThinkingBlocks, List.get_eq_getElem, List.getElem_map]
    rw [hmap, selectedBlocks_filterTurn_claude, stripAllThinkingBlocks, List.mem_filter]
    exact ⟨hp, stripKeep_of_tool_or_nonobject hkeep⟩

/-- Witness for C1 at a concrete conversation: a dual tool+thinking block
survives the strip (and is certified a tool block), while a pure thinking
block does not occur in the output. -/
theorem filterUnsignedThinkingBlocks_claude_strip_complete_witness :
    isToolBlock (Json.obj [("type", Json.str "tool_use"), ("thinking", Json.str "x")]) = true
    ∧ (Json.obj [("type", Json.str "tool_use"), ("thinking", Json.str "x")]) ∈
        selectedBlocks
          ((filterUnsignedThinkingBlocks false
            [Json.obj [("role", Json.str "model"),
              ("parts", Json.arr
                [Json.obj [("type", Json.str "thinking"), ("thinking", Json.str "t")],
                 Json.obj [("type", Json.str "tool_use"), ("thinking", Json.str "x")],
                 Json.str "keep"])]]
            none none true).get ⟨0, by decide⟩) := by
  refine ⟨?_, ?_⟩
  · exact (filterUnsignedThinkingBlocks_claude_strip_complete
      [Json.obj [("role", Json.str "model"),
        ("parts", Json.arr
          [Json.obj [("type", Json.str "thinking"), ("thinking", Json.str "t")],
           Json.obj [("type", Json.str "tool_use"), ("thinking", Json.str "x")],
           Json.str "keep"])]]
      none none).2.1
      (Json.obj [("role", Json.str "model"),
        ("parts", Json.arr
          [Json.obj [("type", Json.str "tool_use"), ("thinking", Json.str "x")],
           Json.str "keep"])])
      (by decide)
      (Json.obj [("type", Json.str "tool_use"), ("thinking", Json.str "x")])
      (by decide) (Or.inl (by decide))
  · exact (filterUnsignedThinkingBlocks_claude_strip_complete
      [Json.obj [("role", Json.str "model"),
        ("parts", Json.arr
          [Json.obj [("type", Json.str "thinking"), ("thinking", Json.str "t")],
           Json.obj [("type", Json.str "tool_use"), ("thinking", Json.str "x")],
           Json.str "keep"])]]
      none none).2.2 0 (by decide) (by decide)
      (Json.obj [("type", Json.str "tool_use"), ("thinking", Json.str "x")])
      (by decide) (Or.inl (by decide))

/-!  ## C3 — sanitizer idempotence -/

theorem Json.getFieldList_append (l1 l2 : List (String × Json)) (k : String) :
    Json.getFieldList (l1 ++ l2) k =
      match Json.getFieldList l1 k with
      | some v => some v
      | none => Json.getFieldList l2 k := by
  induction l1 with
  | nil => simp
  | cons p l1 ih =>
      obtain ⟨k', v'⟩ := p
      by_cases h : k' = k <;> simp [h, ih]

@[simp] theorem getFieldList_optField_self (k : String) (v : Option Json) :
    Json.getFieldList (optField k v) k = v := by
  cases v <;> simp [optField]

theorem getFieldList_optField_ne (k k' : String) (v : Option Json) (h : k ≠ k') :
    Json.getFieldList (optField k v) k' = none := by
  cases v <;> simp [optField, h]

mutual
theorem stripCC_idem : ∀ j : Json,
    stripCacheControlRecursively (stripCacheControlRecursively j)
      = stripCacheControlRecursively j
  | .null => rfl
  | .bool b => rfl
  | .num n => rfl
  | .str s => rfl
  | .arr xs => by
      simp only [stripCacheControlRecursively]
      rw [stripCCList_idem xs]
  | .obj fs => by
      simp only [stripCacheControlRecursively]
      rw [stripCCFields_idem fs]

theorem stripCCList_idem : ∀ l : List Json, stripCCList (stripCCList l) = stripCCList l
  | [] => rfl
  | x :: xs => by
      simp only [stripCCList]
      rw [stripCC_idem x, stripCCList_idem xs]

theorem stripCCFields_idem : ∀ fs : List (String × Json),
    stripCCFields (stripCCFields fs) = stripCCFields fs
  | [] => rfl
  | (k, v) :: fs => by
      by_cases h : k = "cache_control" ∨ k = "providerOptions"
      · rw [stripCCFields, if_pos h]
        exact stripCCFields_idem fs
      · rw [stripCCFields, if_neg h, stripCCFields, if_neg h]
        rw [stripCC_idem v, stripCCFields_idem fs]
end

/-- Field lookup after `stripCacheControlRecursively` for a non-dropped
key. -/
theorem getFieldList_stripCCFields (fs : List (String × Json)) (k : String)
    (hk : ¬(k = "cache_control" ∨ k = "providerOptions")) :
    Json.getFieldList (stripCCFields fs) k
      = (Json.getFieldList fs k).map stripCacheControlRecursively := by
  induction fs with
  | nil => simp [stripCCFields]
  | cons p fs ih =>
      obtain ⟨k', v'⟩ := p
      by_cases h : k' = "cache_control" ∨ k' = "providerOptions"
      · have hne : k' ≠ k := by
          rintro rfl
          exact hk h
        rw [stripCCFields, if_pos h]
        simp [hne, ih]
      · by_cases h2 : k' = k
        · subst h2
          simp [stripCCFields, h]
        · simp [stripCCFields, h, h2, ih]

theorem stripCC_eq_bool_iff (j : Json) (b : Bool) :
    stripCacheControlRecursively j = .bool b ↔ j = .bool b := by
  cases j <;> simp [stripCacheControlRecursively]

theorem stripCC_eq_str_iff (j : Json) (s : String) :
    stripCacheControlRecursively j = .str s ↔ j = .str s := by
  cases j <;> simp [stripCacheControlRecursively]

theorem unwrapTextField_idem (t : Json) :
    unwrapTextField (unwrapTextField t) = unwrapTextField t := by
  cases t with
  | obj fs =>
      cases ht : (Json.obj fs).getField "text" with
      | some v => cases v <;> simp [unwrapTextField, ht, Json.isNonNullObject]
      | none => simp [unwrapTextField, ht, Json.isNonNullObject]
  | arr xs => simp [unwrapTextField, Json.isNonNullObject, Json.getField]
  | null => simp [unwrapTextField, Json.isNonNullObject]
  | bool b => simp [unwrapTextField, Json.isNonNullObject]
  | num n => simp [unwrapTextField, Json.isNonNullObject]
  | str s => simp [unwrapTextField, Json.isNonNullObject]

theorem jsNullish_some_of_ne {w : Json} (hw : w ≠ Json.null) :
    jsNullish (some w) = false := by
  cases w <;> simp_all [jsNullish]

theorem jsCoalesce_eq_some_null {a b : Option Json}
    (h : jsCoalesce a b = some Json.null) : b = some Json.null := by
  rw [jsCoalesce] at h
  by_cases hn : jsNullish a = true
  · rwa [if_pos hn] at h
  · rw [if_neg hn] at h
    exact absurd (by rw [h]; rfl) hn

/-- The Gemini branch of the sanitizer, as an equation. -/
theorem sanitize_eq_branch1 (part : Json)
    (h1 : part.getField "thought" = some (Json.bool true)) :
    sanitizeThinkingPart part = .obj ([("thought", Json.bool true)]
      ++ optField "text" ((part.getField "text").map unwrapTextField)
      ++ optField "thoughtSignature" (part.getField "thoughtSignature")) := by
  simp [sanitizeThinkingPart, h1]

/-- The Anthropic branch of the sanitizer, as an equation. -/
theorem sanitize_eq_branch2 (part : Json)
    (h1 : ¬part.getField "thought" = some (Json.bool true))
    (h2 : part.getField "type" = some (Json.str "thinking")
        ∨ part.getField "type" = some (Json.str "redacted_thinking")
        ∨ (part.getField "thinking").isSome = true) :
    sanitizeThinkingPart part = .obj ([("type", Json.str
        (if part.getField "type" = some (Json.str "redacted_thinking")
         then "redacted_thinking" else "thinking"))]
      ++ optField "thinking"
          ((jsCoalesce (part.getField "thinking") (part.getField "text")).map
            unwrapThinkingContent)
      ++ optField "signature" (part.getField "signature")) := by
  rcases h2 with h | h | h <;> simp [sanitizeThinkingPart, h1, h]

/-- The reasoning branch of the sanitizer, as an equation. -/
theorem sanitize_eq_branch3 (part : Json)
    (h1 : ¬part.getField "thought" = some (Json.bool true))
    (hth : part.getField "thinking" = none)
    (h3 : part.getField "type" = some (Json.str "reasoning")) :
    sanitizeThinkingPart part = .obj ([("type", Json.str "reasoning")]
      ++ optField "text" ((part.getField "text").map unwrapTextField)
      ++ optField "signature" (part.getField "signature")) := by
  simp [sanitizeThinkingPart, h1, hth, h3]

/-- The fallback branch of the sanitizer, as an equation. -/
theorem sanitize_eq_fallback (part : Json)
    (h1 : ¬part.getField "thought" = some (Json.bool true))
    (h2a : ¬part.getField "type" = some (Json.str "thinking"))
    (h2b : ¬part.getField "type" = some (Json.str "redacted_thinking"))
    (hth : part.getField "thinking" = none)
    (h3 : ¬part.getField "type" = some (Json.str "reasoning")) :
    sanitizeThinkingPart part = stripCacheControlRecursively part := by
  simp [sanitizeThinkingPart, h1, h2a, h2b, hth, h3]

/-- The Gemini-branch output is a fixed point of the sanitizer. -/
theorem sanitize_branch1_fix (tv sg : Option Json)
    (htv : ∀ w, tv = some w → unwrapTextField w = w) :
    sanitizeThinkingPart (.obj ([("thought", Json.bool true)]
      ++ optField "text" tv ++ optField "thoughtSignature" sg))
      = .obj ([("thought", Json.bool true)]
        ++ optField "text" tv ++ optField "thoughtSignature" sg) := by
  rcases tv with _ | w
  · rcases sg with _ | s <;>
      simp [sanitizeThinkingPart, optField, Json.getField, Json.getFieldList]
  · have hw := htv w rfl
    rcases sg with _ | s <;>
      simp [sanitizeThinkingPart, optField, Json.getField, Json.getFieldList, hw]

/-- The Anthropic-branch output is a fixed point of the sanitizer. -/
theorem sanitize_branch2_fix (ty : String)
    (hty : ty = "thinking" ∨ ty = "redacted_thinking")
    (tv sg : Option Json)
    (htv : ∀ w, tv = some w → w.isNonNullObject = false ∧ w ≠ Json.null) :
    sanitizeThinkingPart (.obj ([("type", Json.str ty)]
      ++ optField "thinking" tv ++ optField "signature" sg))
      = .obj ([("type", Json.str ty)]
        ++ optField "thinking" tv ++ optField "signature" sg) := by
  rcases tv with _ | w
  · rcases hty with rfl | rfl <;> rcases sg with _ | s <;>
      simp [sanitizeThinkingPart, optField, Json.getField, Json.getFieldList,
        jsCoalesce, jsNullish]
  · obtain ⟨hw1, hw2⟩ := htv w rfl
    rcases hty with rfl | rfl <;> rcases sg with _ | s <;>
      simp [sanitizeThinkingPart, optField, Json.getField, Json.getFieldList,
        jsCoalesce, jsNullish_some_of_ne hw2, unwrapThinkingContent, hw1]

/-- The reasoning-branch output is a fixed point of the sanitizer. -/
theorem sanitize_branch3_fix (tv sg : Option Json)
    (htv : ∀ w, tv = some w → unwrapTextField w = w) :
    sanitizeThinkingPart (.obj ([("type", Json.str "reasoning")]
      ++ optField "text" tv ++ optField "signature" sg))
      = .obj ([("type", Json.str "reasoning")]
        ++ optField "text" tv ++ optField "signature" sg) := by
  rcases tv with _ | w
  · rcases sg with _ | s <;>
      simp [sanitizeThinkingPart, optField, Json.getField, Json.getFieldList]
  · have hw := htv w rfl
    rcases sg with _ | s <;>
      simp [sanitizeThinkingPart, optField, Json.getField, Json.getFieldList, hw]

theorem mapStripCC_eq_bool_iff (o : Option Json) (b : Bool) :
    o.map stripCacheControlRecursively = some (Json.bool b) ↔ o = some (Json.bool b) := by
  cases o with
  | none => simp
  | some a => simp [stripCC_eq_bool_iff]

theorem mapStripCC_eq_str_iff (o : Option Json) (s : String) :
    o.map stripCacheControlRecursively = some (Json.str s) ↔ o = some (Json.str s) := by
  cases o with
  | none => simp
  | some a => simp [stripCC_eq_str_iff]

theorem getField_stripCC_obj (fs : List (String × Json)) (k : String)
    (hk : ¬(k = "cache_control" ∨ k = "providerOptions")) :
    (stripCacheControlRecursively (Json.obj fs)).getField k
      = ((Json.obj fs).getField k).map stripCacheControlRecursively := by
  simp [stripCacheControlRecursively, Json.getField, getFieldList_stripCCFields fs k hk]

/-- The fallback output (`stripCacheControlRecursively`) is a fixed point of
the sanitizer when the input took the fallback branch. -/
theorem sanitize_fallback_fix (part : Json)
    (h1 : ¬part.getField "thought" = some (Json.bool true))
    (h2a : ¬part.getField "type" = some (Json.str "thinking"))
    (h2b : ¬part.getField "type" = some (Json.str "redacted_thinking"))
    (hth : part.getField "thinking" = none)
    (h3 : ¬part.getField "type" = some (Json.str "reasoning")) :
    sanitizeThinkingPart (stripCacheControlRecursively part)
      = stripCacheControlRecursively part := by
  cases part with
  | obj fs =>
      have e1 := getField_stripCC_obj fs "thought" (by decide)
      have e2 := getField_stripCC_obj fs "type" (by decide)
      have e3 := getField_stripCC_obj fs "thinking" (by decide)
      have h1' : ¬(stripCacheControlRecursively (Json.obj fs)).getField "thought"
          = some (Json.bool true) := by
        rw [e1, mapStripCC_eq_bool_iff]; exact h1
      have h2a' : ¬(stripCacheControlRecursively (Json.obj fs)).getField "type"
          = some (Json.str "thinking") := by
        rw [e2, mapStripCC_eq_str_iff]; exact h2a
      have h2b' : ¬(stripCacheControlRecursively (Json.obj fs)).getField "type"
          = some (Json.str "redacted_thinking") := by
        rw [e2, mapStripCC_eq_str_iff]; exact h2b
      have hth' : (stripCacheControlRecursively (Json.obj fs)).getField "thinking"
          = none := by
        rw [e3, hth]; rfl
      have h3' : ¬(stripCacheControlRecursively (Json.obj fs)).getField "type"
          = some (Json.str "reasoning") := by
        rw [e2, mapStripCC_eq_str_iff]; exact h3
      rw [sanitize_eq_fallback _ h1' h2a' h2b' hth' h3', stripCC_idem]
  | null => simp [sanitizeThinkingPart, Json.getField, stripCacheControlRecursively]
  | bool b => simp [sanitizeThinkingPart, Json.getField, stripCacheControlRecursively]
  | num n => simp [sanitizeThinkingPart, Json.getField, stripCacheControlRecursively]
  | str s => simp [sanitizeThinkingPart, Json.getField, stripCacheControlRecursively]
  | arr xs =>
      simp [sanitizeThinkingPart, Json.getField, stripCacheControlRecursively,
        stripCCList_idem]

/-- C3 (amended): `sanitizeThinkingPart` is idempotent on every content
block whose `text` field is not a literal JSON `null`. -/
theorem sanitizeThinkingPart_idem_of_text_not_null (part : Json)
    (htext : part.getField "text" ≠ some Json.null) :
    sanitizeThinkingPart (sanitizeThinkingPart part) = sanitizeThinkingPart part := by
  by_cases h1 : part.getField "thought" = some (Json.bool true)
  · rw [sanitize_eq_branch1 part h1]
    apply sanitize_branch1_fix
    intro w hw
    rcases ho : part.getField "text" with _ | a
    · rw [ho] at hw; simp at hw
    · rw [ho] at hw
      simp only [Option.map_some'] at hw
      obtain rfl : unwrapTextField a = w := Option.some_injective _ hw
      exact unwrapTextField_idem a
  · by_cases h2 : part.getField "type" = some (Json.str "thinking")
        ∨ part.getField "type" = some (Json.str "redacted_thinking")
        ∨ (part.getField "thinking").isSome = true
    · rw [sanitize_eq_branch2 part h1 h2]
      apply sanitize_branch2_fix
      · by_cases hr : part.getField "type" = some (Json.str "redacted_thinking") <;>
          simp [hr]
      · intro w hw
        rcases hc : jsCoalesce (part.getField "thinking") (part.getField "text")
          with _ | v
        · rw [hc] at hw; simp at hw
        · rw [hc] at hw
          simp only [Option.map_some'] at hw
          obtain rfl : unwrapThinkingContent v = w := Option.some_injective _ hw
          by_cases hv : v.isNonNullObject = true
          · rw [unwrapThinkingContent, if_pos hv]
            rcases jsCoalesce (v.getField "text") (v.getField "thinking") with _ | u
            · exact ⟨rfl, by simp⟩
            · cases u <;> exact ⟨rfl, by simp⟩
          · rw [unwrapThinkingContent, if_neg hv]
            refine ⟨by simpa using hv, ?_⟩
            rintro rfl
            exact htext (jsCoalesce_eq_some_null hc)
    · push_neg at h2
      obtain ⟨h2a, h2b, h2c⟩ := h2
      have hth : part.getField "thinking" = none := by
        rcases hv : part.getField "thinking" with _ | v
        · rfl
        · rw [hv] at h2c; simp at h2c
      by_cases h3 : part.getField "type" = some (Json.str "reasoning")
      · rw [sanitize_eq_branch3 part h1 hth h3]
        apply sanitize_branch3_fix
        intro w hw
        rcases ho : part.getField "text" with _ | a
        · rw [ho] at hw; simp at hw
        · rw [ho] at hw
          simp only [Option.map_some'] at hw
          obtain rfl : unwrapTextField a = w := Option.some_injective _ hw
          exact unwrapTextField_idem a
      · rw [sanitize_eq_fallback part h1 h2a h2b hth h3]
        exact sanitize_fallback_fix part h1 h2a h2b hth h3

/-- Witness for C3 (amended) at a concrete wrapped Gemini-style thought
block carrying injected SDK fields. -/
theorem sanitizeThinkingPart_idem_witness :
    (Json.obj [("thought", Json.bool true),
      ("text", Json.obj [("text", Json.str "wrapped"),
        ("cache_control", Json.obj [("type", Json.str "ephemeral")])]),
      ("thoughtSignature", Json.str "tag")]).getField "text" ≠ some Json.null
    ∧ sanitizeThinkingPart (sanitizeThinkingPart
        (Json.obj [("thought", Json.bool true),
          ("text", Json.obj [("text", Json.str "wrapped"),
            ("cache_control", Json.obj [("type", Json.str "ephemeral")])]),
          ("thoughtSignature", Json.str "tag")]))
      = sanitizeThinkingPart
        (Json.obj [("thought", Json.bool true),
          ("text", Json.obj [("text", Json.str "wrapped"),
            ("cache_control", Json.obj [("type", Json.str "ephemeral")])]),
          ("thoughtSignature", Json.str "tag")]) :=
  ⟨by decide,
   sanitizeThinkingPart_idem_of_text_not_null
     (Json.obj [("thought", Json.bool true),
       ("text", Json.obj [("text", Json.str "wrapped"),
         ("cache_control", Json.obj [("type", Json.str "ephemeral")])]),
       ("thoughtSignature", Json.str "tag")])
     (by decide)⟩

/-- C3 counterexample: the sanitizer is **not** idempotent on the Anthropic
block `{type: "thinking", text: null}`: the first pass emits
`{type: "thinking", thinking: null}`, the second drops the null thinking
payload, yielding `{type: "thinking"}`. -/
theorem sanitizeThinkingPart_not_idempotent :
    sanitizeThinkingPart (sanitizeThinkingPart
        (Json.obj [("type", Json.str "thinking"), ("text", Json.null)]))
      ≠ sanitizeThinkingPart
        (Json.obj [("type", Json.str "thinking"), ("text", Json.null)]) := by
  decide

/-!  ## C5 — short signatures behave like absent ones -/

/-- "The same block with the signature field removed": the slot the source
consults (`thoughtSignature` for `thought: true` blocks, `signature`
otherwise). -/
def eraseSignatureSlot (part : Json) : Json :=
  if part.getField "thought" == some (.bool true) then
    part.eraseField "thoughtSignature"
  else
    part.eraseField "signature"

theorem isToolBlock_congr {p q : Json}
    (h1 : p.getField "type" = q.getField "type")
    (h2 : p.getField "tool_use_id" = q.getField "tool_use_id")
    (h3 : p.getField "tool_call_id" = q.getField "tool_call_id")
    (h4 : p.getField "tool_result" = q.getField "tool_result")
    (h5 : p.getField "tool_use" = q.getField "tool_use")
    (h6 : p.getField "toolUse" = q.getField "toolUse")
    (h7 : p.getField "functionCall" = q.getField "functionCall")
    (h8 : p.getField "functionResponse" = q.getField "functionResponse") :
    isToolBlock p = isToolBlock q := by
  rw [isToolBlock, isToolBlock, h1, h2, h3, h4, h5, h6, h7, h8]

theorem isThinkingPart_congr {p q : Json}
    (h1 : p.getField "type" = q.getField "type")
    (h2 : p.getField "thinking" = q.getField "thinking")
    (h3 : p.getField "thought" = q.getField "thought") :
    isThinkingPart p = isThinkingPart q := by
  rw [isThinkingPart, isThinkingPart, h1, h2, h3]

theorem getThinkingText_congr {p q : Json}
    (h1 : p.getField "text" = q.getField "text")
    (h2 : p.getField "thinking" = q.getField "thinking") :
    getThinkingText p = getThinkingText q := by
  rw [getThinkingText, getThinkingText, h1, h2]

theorem getSignatureRaw_congr {p q : Json}
    (h1 : p.getField "thought" = q.getField "thought")
    (h2 : p.getField "thoughtSignature" = q.getField "thoughtSignature")
    (h3 : p.getField "signature" = q.getField "signature") :
    getSignatureRaw p = getSignatureRaw q := by
  rw [getSignatureRaw, getSignatureRaw, h1, h2, h3]

/-- Two thinking-shaped blocks with the same sanitizer-relevant fields
sanitize identically. -/
theorem sanitize_eq_of_fields_eq {p q : Json}
    (hthought : p.getField "thought" = q.getField "thought")
    (htype : p.getField "type" = q.getField "type")
    (hthinking : p.getField "thinking" = q.getField "thinking")
    (htext : p.getField "text" = q.getField "text")
    (hsig : p.getField "signature" = q.getField "signature")
    (htsig : p.getField "thoughtSignature" = q.getField "thoughtSignature")
    (hshape : isThinkingPart p = true) :
    sanitizeThinkingPart p = sanitizeThinkingPart q := by
  by_cases h1 : p.getField "thought" = some (Json.bool true)
  · rw [sanitize_eq_branch1 p h1, sanitize_eq_branch1 q (hthought ▸ h1), htext, htsig]
  · have h1q : ¬q.getField "thought" = some (Json.bool true) := hthought ▸ h1
    by_cases h2 : p.getField "type" = some (Json.str "thinking")
        ∨ p.getField "type" = some (Json.str "redacted_thinking")
        ∨ (p.getField "thinking").isSome = true
    · have h2q : q.getField "type" = some (Json.str "thinking")
          ∨ q.getField "type" = some (Json.str "redacted_thinking")
          ∨ (q.getField "thinking").isSome = true := by
        rcases h2 with h | h | h
        · exact Or.inl (htype ▸ h)
        · exact Or.inr (Or.inl (htype ▸ h))
        · exact Or.inr (Or.inr (hthinking ▸ h))
      rw [sanitize_eq_branch2 p h1 h2, sanitize_eq_branch2 q h1q h2q,
        htype, hthinking, htext, hsig]
    · push_neg at h2
      obtain ⟨h2a, h2b, h2c⟩ := h2
      have hth : p.getField "thinking" = none := by
        rcases hv : p.getField "thinking" with _ | v
        · rfl
        · rw [hv] at h2c; simp at h2c
      have h3 : p.getField "type" = some (Json.str "reasoning") := by
        rw [isThinkingPart] at hshape
        simp only [Bool.or_eq_true, beq_iff_eq, Option.isSome_iff_exists] at hshape
        rcases hshape with ((((h | h) | h) | ⟨v, h⟩) | h)
        · exact absurd h h2a
        · exact absurd h h2b
        · exact h
        · rw [h] at hth; cases hth
        · exact absurd h h1
      rw [sanitize_eq_branch3 p h1 hth h3,
        sanitize_eq_branch3 q h1q (hthinking ▸ hth) (htype ▸ h3), htext, hsig]

theorem hasValid_false_of_short {p : Json} {s : String}
    (hs : getSignature p = some s) (hl : s.length < 50) :
    hasValidSignature p = false := by
  rw [getSignature] at hs
  rcases hraw : getSignatureRaw p with _ | v
  · rw [hraw] at hs; cases hs
  · rw [hraw] at hs
    cases v <;> simp at hs
    subst hs
    simp [hasValidSignature, hraw]
    omega

theorem hasValid_false_of_none {p : Json}
    (hs : getSignatureRaw p = none) : hasValidSignature p = false := by
  simp [hasValidSignature, hs]

theorem getSignature_none_of_raw_none {p : Json}
    (hs : getSignatureRaw p = none) : getSignature p = none := by
  simp [getSignature, hs]

theorem isOurCached_false_of_no_sig {p : Json} (sid : Option String)
    (fn : Option CacheFn) (hs : getSignature p = none) :
    isOurCachedSignature p sid fn = false := by
  cases sid with
  | none => cases fn <;> rfl
  | some s =>
    cases fn with
    | none => rfl
    | some f =>
      by_cases hsid : s = ""
      · simp [isOurCachedSignature, hsid]
      · by_cases htext : getThinkingText p = ""
        · simp [isOurCachedSignature, hsid, htext]
        · simp [isOurCachedSignature, hsid, htext, hs]

theorem stripKeep_false_of_thinking_nontool {p : Json}
    (h1 : isThinkingPart p = true) (h2 : isToolBlock p = false) :
    stripKeep p = false := by
  obtain ⟨fs, rfl⟩ := isThinkingPart_obj h1
  simp [stripKeep, h1, h2]

theorem removeTrailing_singleton_drop (x : Json) (sid : Option String)
    (fn : Option CacheFn) (h1 : isThinkingPart x = true)
    (h2 : hasValidSignature x = false)
    (h3 : isOurCachedSignature x sid fn = false) :
    removeTrailingThinkingBlocks [x] sid fn = [] := by
  rw [removeTrailingThinkingBlocks]
  cases sid with
  | none => simp [rtLoop, h1, h2]
  | some s =>
      cases fn with
      | none => simp [rtLoop, h1, h2]
      | some f =>
          by_cases hs : s = "" <;> simp [rtLoop, h1, h2, h3, hs]

/-- Reduction of `trustFilterItem` on an untrusted non-tool thinking
block. -/
theorem trustFilterItem_untrusted (p : Json) (sid : Option String)
    (fn : Option CacheFn)
    (hshape : isThinkingPart p = true ∨ hasSignatureField p = true)
    (htool : isToolBlock p = false)
    (htrust : isOurCachedSignature p sid fn = false) :
    trustFilterItem sid fn p =
      match sid, fn with
      | some sid', some f =>
          if sid' = "" then none
          else if getThinkingText p = "" then none
          else
            match f sid' (getThinkingText p) with
            | some cached =>
                if cached ≠ "" ∧ 50 ≤ cached.length
                then some (sanitizeThinkingPart (restoreSig p cached)) else none
            | none => none
      | _, _ => none := by
  have hobj : ∃ fs, p = .obj fs := by
    rcases hshape with h | h
    · exact isThinkingPart_obj h
    · exact hasSignatureField_obj h
  obtain ⟨fs, rfl⟩ := hobj
  rcases hshape with h | h <;>
  · cases sid with
    | none => simp [trustFilterItem, h, htool, htrust]
    | some sid' =>
      cases fn with
      | none => simp [trustFilterItem, h, htool, htrust]
      | some f => simp [trustFilterItem, h, htool, htrust]

/-- Two untrusted non-tool thinking blocks with the same text and the same
restoration outcome are handled identically by the trust loop. -/
theorem trustFilterItem_eq_of_equiv {p q : Json} (sid : Option String)
    (fn : Option CacheFn)
    (hpthink : isThinkingPart p = true) (hqthink : isThinkingPart q = true)
    (hptool : isToolBlock p = false) (hqtool : isToolBlock q = false)
    (hptrust : isOurCachedSignature p sid fn = false)
    (hqtrust : isOurCachedSignature q sid fn = false)
    (htext : getThinkingText p = getThinkingText q)
    (hrestore : ∀ cached, sanitizeThinkingPart (restoreSig p cached)
        = sanitizeThinkingPart (restoreSig q cached)) :
    trustFilterItem sid fn p = trustFilterItem sid fn q := by
  rw [trustFilterItem_untrusted p sid fn (Or.inl hpthink) hptool hptrust,
    trustFilterItem_untrusted q sid fn (Or.inl hqthink) hqtool hqtrust]
  simp only [htext, hrestore]
  cases sid <;> cases fn <;> rfl
theorem Json.getField_eraseList_ne (fs : List (String × Json)) (k k'' : String)
    (hne : k ≠ k'') :
    (Json.obj (Json.eraseFieldList fs k)).getField k'' = (Json.obj fs).getField k'' :=
  Json.getField_eraseField_ne fs k k'' hne

theorem Json.getField_eraseList_self (fs : List (String × Json)) (k : String) :
    (Json.obj (Json.eraseFieldList fs k)).getField k = none :=
  Json.getField_eraseField_self fs k

/-- C5 (amended): a thinking block whose consulted signature is shorter
than 50 characters is handled by the filtering transforms exactly like the
same block with the signature slot removed — **provided** the cache lookup
for the block's text is not literally equal to that short signature (cache
trust performs no length check, so a cache-matching short signature is
still trusted). -/
theorem shortSignature_equiv_absent (part : Json) (sid : Option String)
    (fn : Option CacheFn) (kt claude : Bool) (s : String)
    (hthink : isThinkingPart part = true)
    (htool : isToolBlock part = false)
    (hsig : getSignature part = some s) (hlen : s.length < 50)
    (htrust : isOurCachedSignature part sid fn = false) :
    filterContentArray kt [part] sid fn claude
      = filterContentArray kt [eraseSignatureSlot part] sid fn claude
    ∧ removeTrailingThinkingBlocks [part] sid fn
      = removeTrailingThinkingBlocks [eraseSignatureSlot part] sid fn := by
  obtain ⟨fs, rfl⟩ := isThinkingPart_obj hthink
  have hpvalid : hasValidSignature (Json.obj fs) = false :=
    hasValid_false_of_short hsig hlen
  by_cases hth : (Json.obj fs).getField "thought" = some (Json.bool true)
  · -- Gemini-style: the consulted slot is thoughtSignature
    have hqe : eraseSignatureSlot (Json.obj fs)
        = Json.obj (Json.eraseFieldList fs "thoughtSignature") := by
      rw [eraseSignatureSlot, if_pos (by simp [hth])]
      rfl
    rw [hqe]
    have f_thought := Json.getField_eraseList_ne fs "thoughtSignature" "thought" (by decide)
    have f_type := Json.getField_eraseList_ne fs "thoughtSignature" "type" (by decide)
    have f_thinking := Json.getField_eraseList_ne fs "thoughtSignature" "thinking" (by decide)
    have f_text := Json.getField_eraseList_ne fs "thoughtSignature" "text" (by decide)
    have f_sig := Json.getField_eraseList_ne fs "thoughtSignature" "signature" (by decide)
    have f_slot := Json.getField_eraseList_self fs "thoughtSignature"
    have hqthink : isThinkingPart (Json.obj (Json.eraseFieldList fs "thoughtSignature")) = true := by
      rw [isThinkingPart_congr f_type f_thinking f_thought]
      exact hthink
    have hqtool : isToolBlock (Json.obj (Json.eraseFieldList fs "thoughtSignature")) = false := by
      rw [isToolBlock_congr f_type
        (Json.getField_eraseList_ne fs _ "tool_use_id" (by decide))
        (Json.getField_eraseList_ne fs _ "tool_call_id" (by decide))
        (Json.getField_eraseList_ne fs _ "tool_result" (by decide))
        (Json.getField_eraseList_ne fs _ "tool_use" (by decide))
        (Json.getField_eraseList_ne fs _ "toolUse" (by decide))
        (Json.getField_eraseList_ne fs _ "functionCall" (by decide))
        (Json.getField_eraseList_ne fs _ "functionResponse" (by decide))]
      exact htool
    have hqraw : getSignatureRaw (Json.obj (Json.eraseFieldList fs "thoughtSignature")) = none := by
      rw [getSignatureRaw, if_pos (by simp [f_thought, hth])]
      exact f_slot
    have hqsig := getSignature_none_of_raw_none hqraw
    have hqvalid := hasValid_false_of_none hqraw
    have hqtrust := isOurCached_false_of_no_sig sid fn hqsig
    have htext : getThinkingText (Json.obj fs)
        = getThinkingText (Json.obj (Json.eraseFieldList fs "thoughtSignature")) :=
      getThinkingText_congr f_text.symm f_thinking.symm
    have hrestore : ∀ cached,
        sanitizeThinkingPart (restoreSig (Json.obj fs) cached)
          = sanitizeThinkingPart
              (restoreSig (Json.obj (Json.eraseFieldList fs "thoughtSignature")) cached) := by
      intro cached
      have hr1 : restoreSig (Json.obj fs) cached
          = (Json.obj fs).setField "thoughtSignature" (Json.str cached) := by
        simp [restoreSig, hth]
      have hr2 : restoreSig (Json.obj (Json.eraseFieldList fs "thoughtSignature")) cached
          = (Json.obj (Json.eraseFieldList fs "thoughtSignature")).setField
              "thoughtSignature" (Json.str cached) := by
        simp [restoreSig, f_thought, hth]
      rw [hr1, hr2]
      refine sanitize_eq_of_fields_eq ?_ ?_ ?_ ?_ ?_ ?_ ?_
      · rw [Json.getField_setField_ne fs "thoughtSignature" (Json.str cached) "thought" (by decide),
          Json.getField_setField_ne _ "thoughtSignature" (Json.str cached) "thought" (by decide),
          f_thought]
      · rw [Json.getField_setField_ne fs "thoughtSignature" (Json.str cached) "type" (by decide),
          Json.getField_setField_ne _ "thoughtSignature" (Json.str cached) "type" (by decide),
          f_type]
      · rw [Json.getField_setField_ne fs "thoughtSignature" (Json.str cached) "thinking" (by decide),
          Json.getField_setField_ne _ "thoughtSignature" (Json.str cached) "thinking" (by decide),
          f_thinking]
      · rw [Json.getField_setField_ne fs "thoughtSignature" (Json.str cached) "text" (by decide),
          Json.getField_setField_ne _ "thoughtSignature" (Json.str cached) "text" (by decide),
          f_text]
      · rw [Json.getField_setField_ne fs "thoughtSignature" (Json.str cached) "signature" (by decide),
          Json.getField_setField_ne _ "thoughtSignature" (Json.str cached) "signature" (by decide),
          f_sig]
      · rw [Json.getField_setField_self fs "thoughtSignature" (Json.str cached),
          Json.getField_setField_self _ "thoughtSignature" (Json.str cached)]
      · rw [isThinkingPart_congr
          (Json.getField_setField_ne fs "thoughtSignature" (Json.str cached) "type" (by decide))
          (Json.getField_setField_ne fs "thoughtSignature" (Json.str cached) "thinking" (by decide))
          (Json.getField_setField_ne fs "thoughtSignature" (Json.str cached) "thought" (by decide))]
        exact hthink
    have hitem := trustFilterItem_eq_of_equiv sid fn hthink hqthink htool hqtool
      htrust hqtrust htext hrestore
    constructor
    · by_cases hck : (claude && !kt) = true
      · rw [filterContentArray, filterContentArray, if_pos hck, if_pos hck]
        rw [stripAllThinkingBlocks, stripAllThinkingBlocks]
        rw [List.filter_cons, List.filter_cons]
        simp [stripKeep_false_of_thinking_nontool hthink htool,
          stripKeep_false_of_thinking_nontool hqthink hqtool]
      · rw [filterContentArray, filterContentArray, if_neg hck, if_neg hck]
        rw [List.filterMap_cons, List.filterMap_cons, hitem]
    · rw [removeTrailing_singleton_drop _ sid fn hthink hpvalid htrust,
        removeTrailing_singleton_drop _ sid fn hqthink hqvalid hqtrust]
  · -- Anthropic/reasoning style: the consulted slot is signature
    have hqe : eraseSignatureSlot (Json.obj fs)
        = Json.obj (Json.eraseFieldList fs "signature") := by
      rw [eraseSignatureSlot, if_neg (by simp [hth])]
      rfl
    rw [hqe]
    have f_thought := Json.getField_eraseList_ne fs "signature" "thought" (by decide)
    have f_type := Json.getField_eraseList_ne fs "signature" "type" (by decide)
    have f_thinking := Json.getField_eraseList_ne fs "signature" "thinking" (by decide)
    have f_text := Json.getField_eraseList_ne fs "signature" "text" (by decide)
    have f_tsig := Json.getField_eraseList_ne fs "signature" "thoughtSignature" (by decide)
    have f_slot := Json.getField_eraseList_self fs "signature"
    have hqthink : isThinkingPart (Json.obj (Json.eraseFieldList fs "signature")) = true := by
      rw [isThinkingPart_congr f_type f_thinking f_thought]
      exact hthink
    have hqtool : isToolBlock (Json.obj (Json.eraseFieldList fs "signature")) = false := by
      rw [isToolBlock_congr f_type
        (Json.getField_eraseList_ne fs _ "tool_use_id" (by decide))
        (Json.getField_eraseList_ne fs _ "tool_call_id" (by decide))
        (Json.getField_eraseList_ne fs _ "tool_result" (by decide))
        (Json.getField_eraseList_ne fs _ "tool_use" (by decide))
        (Json.getField_eraseList_ne fs _ "toolUse" (by decide))
        (Json.getField_eraseList_ne fs _ "functionCall" (by decide))
        (Json.getField_eraseList_ne fs _ "functionResponse" (by decide))]
      exact htool
    have hqraw : getSignatureRaw (Json.obj (Json.eraseFieldList fs "signature")) = none := by
      rw [getSignatureRaw, if_neg (by simp [f_thought, hth])]
      exact f_slot
    have hqsig := getSignature_none_of_raw_none hqraw
    have hqvalid := hasValid_false_of_none hqraw
    have hqtrust := isOurCached_false_of_no_sig sid fn hqsig
    have htext : getThinkingText (Json.obj fs)
        = getThinkingText (Json.obj (Json.eraseFieldList fs "signature")) :=
      getThinkingText_congr f_text.symm f_thinking.symm
    have hrestore : ∀ cached,
        sanitizeThinkingPart (restoreSig (Json.obj fs) cached)
          = sanitizeThinkingPart
              (restoreSig (Json.obj (Json.eraseFieldList fs "signature")) cached) := by
      intro cached
      have hr1 : restoreSig (Json.obj fs) cached
          = (Json.obj fs).setField "signature" (Json.str cached) := by
        simp [restoreSig, hth]
      have hr2 : restoreSig (Json.obj (Json.eraseFieldList fs "signature")) cached
          = (Json.obj (Json.eraseFieldList fs "signature")).setField
              "signature" (Json.str cached) := by
        simp [restoreSig, f_thought, hth]
      rw [hr1, hr2]
      refine sanitize_eq_of_fields_eq ?_ ?_ ?_ ?_ ?_ ?_ ?_
      · rw [Json.getField_setField_ne fs "signature" (Json.str cached) "thought" (by decide),
          Json.getField_setField_ne _ "signature" (Json.str cached) "thought" (by decide),
          f_thought]
      · rw [Json.getField_setField_ne fs "signature" (Json.str cached) "type" (by decide),
          Json.getField_setField_ne _ "signature" (Json.str cached) "type" (by decide),
          f_type]
      · rw [Json.getField_setField_ne fs "signature" (Json.str cached) "thinking" (by decide),
          Json.getField_setField_ne _ "signature" (Json.str cached) "thinking" (by decide),
          f_thinking]
      · rw [Json.getField_setField_ne fs "signature" (Json.str cached) "text" (by decide),
          Json.getField_setField_ne _ "signature" (Json.str cached) "text" (by decide),
          f_text]
      · rw [Json.getField_setField_self fs "signature" (Json.str cached),
          Json.getField_setField_self _ "signature" (Json.str cached)]
      · rw [Json.getField_setField_ne fs "signature" (Json.str cached) "thoughtSignature" (by decide),
          Json.getField_setField_ne _ "signature" (Json.str cached) "thoughtSignature" (by decide),
          f_tsig]
      · rw [isThinkingPart_congr
          (Json.getField_setField_ne fs "signature" (Json.str cached) "type" (by decide))
          (Json.getField_setField_ne fs "signature" (Json.str cached) "thinking" (by decide))
          (Json.getField_setField_ne fs "signature" (Json.str cached) "thought" (by decide))]
        exact hthink
    have hitem := trustFilterItem_eq_of_equiv sid fn hthink hqthink htool hqtool
      htrust hqtrust htext hrestore
    constructor
    · by_cases hck : (claude && !kt) = true
      · rw [filterContentArray, filterContentArray, if_pos hck, if_pos hck]
        rw [stripAllThinkingBlocks, stripAllThinkingBlocks]
        rw [List.filter_cons, List.filter_cons]
        simp [stripKeep_false_of_thinking_nontool hthink htool,
          stripKeep_false_of_thinking_nontool hqthink hqtool]
      · rw [filterContentArray, filterContentArray, if_neg hck, if_neg hck]
        rw [List.filterMap_cons, List.filterMap_cons, hitem]
    · rw [removeTrailing_singleton_drop _ sid fn hthink hpvalid htrust,
        removeTrailing_singleton_drop _ sid fn hqthink hqvalid hqtrust]

/-- Witness for C5 (amended) at a concrete short-signed Anthropic thinking
block with no session (every signed block foreign). -/
theorem shortSignature_equiv_absent_witness :
    filterContentArray false
        [Json.obj [("type", Json.str "thinking"), ("thinking", Json.str "t"),
                   ("signature", Json.str "short")]] none none false
      = filterContentArray false
        [eraseSignatureSlot
          (Json.obj [("type", Json.str "thinking"), ("thinking", Json.str "t"),
                     ("signature", Json.str "short")])] none none false
    ∧ removeTrailingThinkingBlocks
        [Json.obj [("type", Json.str "thinking"), ("thinking", Json.str "t"),
                   ("signature", Json.str "short")]] none none
      = removeTrailingThinkingBlocks
        [eraseSignatureSlot
          (Json.obj [("type", Json.str "thinking"), ("thinking", Json.str "t"),
                     ("signature", Json.str "short")])] none none :=
  shortSignature_equiv_absent
    (Json.obj [("type", Json.str "thinking"), ("thinking", Json.str "t"),
               ("signature", Json.str "short")])
    none none false false "short"
    (by decide) (by decide) (by decide) (by decide) (by decide)

/-- C5 counterexample: when the cache maps the block's exact text to the
very same short (3-character) signature, the signed block is trusted and
kept while the unsigned variant is dropped — short signatures are **not**
universally equivalent to absent ones. -/
theorem shortSignature_not_equiv_absent_when_cached :
    filterContentArray false
        [Json.obj [("type", Json.str "thinking"), ("thinking", Json.str "t"),
                   ("signature", Json.str "abc")]]
        (some "s") (some fun _ _ => some "abc") false
      ≠ filterContentArray false
        [eraseSignatureSlot
          (Json.obj [("type", Json.str "thinking"), ("thinking", Json.str "t"),
                     ("signature", Json.str "abc")])]
        (some "s") (some fun _ _ => some "abc") false := by
  decide

/-!  ## C7 — conservative classification of signed unknowns -/

/-- C7: under the trust-based per-block path, a non-tool block carrying a
signature field is handled as a thinking block: it is dropped, kept in
sanitized form when cache-trusted, or kept with the cached signature
restored — never pushed through as plain content. -/
theorem signedUnknown_handled_as_thinking (kt claude : Bool)
    (sid : Option String) (fn : Option CacheFn) (b : Json)
    (htrustpath : claude = false ∨ kt = true)
    (htool : isToolBlock b = false)
    (hsig : hasSignatureField b = true) :
    filterContentArray kt [b] sid fn claude = []
    ∨ (isOurCachedSignature b sid fn = true
        ∧ filterContentArray kt [b] sid fn claude = [sanitizeThinkingPart b])
    ∨ (∃ sid' f cached, sid = some sid' ∧ fn = some f ∧ sid' ≠ ""
        ∧ getThinkingText b ≠ ""
        ∧ f sid' (getThinkingText b) = some cached ∧ 50 ≤ cached.length
        ∧ filterContentArray kt [b] sid fn claude
            = [sanitizeThinkingPart (restoreSig b cached)]) := by
  obtain ⟨fs, rfl⟩ := hasSignatureField_obj hsig
  have hpath : (claude && !kt) = false := by
    rcases htrustpath with rfl | rfl <;> simp
  have hfc : filterContentArray kt [Json.obj fs] sid fn claude
      = match trustFilterItem sid fn (Json.obj fs) with
        | some b' => [b']
        | none => [] := by
    rw [filterContentArray, if_neg (by simp [hpath]), List.filterMap_cons]
    cases trustFilterItem sid fn (Json.obj fs) <;> simp
  by_cases htr : isOurCachedSignature (Json.obj fs) sid fn = true
  · right; left
    refine ⟨htr, ?_⟩
    rw [hfc]
    have : trustFilterItem sid fn (Json.obj fs)
        = some (sanitizeThinkingPart (Json.obj fs)) := by
      simp [trustFilterItem, hsig, htool, htr]
    rw [this]
  · have htr' : isOurCachedSignature (Json.obj fs) sid fn = false := by
      simpa using htr
    have hred := trustFilterItem_untrusted _ sid fn (Or.inr hsig) htool htr'
    rw [hfc, hred]
    cases sid with
    | none => left; rfl
    | some sid' =>
      cases fn with
      | none => left; rfl
      | some f =>
        by_cases hs : sid' = ""
        · left; simp [hs]
        · by_cases htx : getThinkingText (Json.obj fs) = ""
          · left; simp [hs, htx]
          · cases hc : f sid' (getThinkingText (Json.obj fs)) with
            | none => left; simp [hs, htx, hc]
            | some cached =>
              by_cases hlen : cached ≠ "" ∧ 50 ≤ cached.length
              · right; right
                exact ⟨sid', f, cached, rfl, rfl, hs, htx, hc, hlen.2,
                  by simp [hs, htx, hc, hlen]⟩
              · left; simp [hs, htx, hc, hlen]

/-- Witness for C7 at a concrete signed unknown-typed block with no
session: it is dropped, not forwarded. -/
theorem signedUnknown_handled_as_thinking_witness :
    filterContentArray false
        [Json.obj [("type", Json.str "mystery"), ("text", Json.str "t"),
                   ("signature", Json.str "x")]] none none false = []
    ∨ (isOurCachedSignature
          (Json.obj [("type", Json.str "mystery"), ("text", Json.str "t"),
                     ("signature", Json.str "x")]) none none = true
        ∧ filterContentArray false
            [Json.obj [("type", Json.str "mystery"), ("text", Json.str "t"),
                       ("signature", Json.str "x")]] none none false
          = [sanitizeThinkingPart
              (Json.obj [("type", Json.str "mystery"), ("text", Json.str "t"),
                         ("signature", Json.str "x")])])
    ∨ (∃ sid' f cached, (none : Option String) = some sid'
        ∧ (none : Option CacheFn) = some f ∧ sid' ≠ ""
        ∧ getThinkingText
            (Json.obj [("type", Json.str "mystery"), ("text", Json.str "t"),
                       ("signature", Json.str "x")]) ≠ ""
        ∧ f sid' (getThinkingText
            (Json.obj [("type", Json.str "mystery"), ("text", Json.str "t"),
                       ("signature", Json.str "x")])) = some cached
        ∧ 50 ≤ cached.length
        ∧ filterContentArray false
            [Json.obj [("type", Json.str "mystery"), ("text", Json.str "t"),
                       ("signature", Json.str "x")]] none none false
          = [sanitizeThinkingPart (restoreSig
              (Json.obj [("type", Json.str "mystery"), ("text", Json.str "t"),
                         ("signature", Json.str "x")]) cached)]) :=
  signedUnknown_handled_as_thinking false false none none
    (Json.obj [("type", Json.str "mystery"), ("text", Json.str "t"),
               ("signature", Json.str "x")])
    (Or.inl rfl) (by decide) (by decide)

/-- Reduction of `trustFilterItem` on a cache-trusted block. -/
theorem trustFilterItem_trusted (p : Json) (sid : Option String)
    (fn : Option CacheFn)
    (hshape : isThinkingPart p = true ∨ hasSignatureField p = true)
    (htool : isToolBlock p = false)
    (htrust : isOurCachedSignature p sid fn = true) :
    trustFilterItem sid fn p = some (sanitizeThinkingPart p) := by
  have hobj : ∃ fs, p = .obj fs := by
    rcases hshape with h | h
    · exact isThinkingPart_obj h
    · exact hasSignatureField_obj h
  obtain ⟨fs, rfl⟩ := hobj
  rcases hshape with h | h <;> simp [trustFilterItem, h, htool, htrust]

/-!  ## C8 — trust-based keep / restore / drop policy -/

/-- C8 (amended): under the per-block trust path with a **non-empty**
session id and a cache lookup supplied, a non-tool thinking block is
(i) kept in sanitized form when its **non-empty** signature literally
matches the cached one for its exact text (the trust test
`isOurCachedSignature` embeds the JS `!partSignature` guard, so an
empty-string signature is never trusted — see the counterexample), (ii)
kept with the cached signature (length ≥ 50) attached when it is untrusted
but its exact text has such a cached signature, and (iii) dropped in every
other case. -/
theorem trustPolicy_keep_restore_drop (kt claude : Bool) (sid' : String)
    (f : CacheFn) (b : Json)
    (htrustpath : claude = false ∨ kt = true)
    (hsid : sid' ≠ "")
    (htool : isToolBlock b = false)
    (hthink : isThinkingPart b = true) :
    (isOurCachedSignature b (some sid') (some f) = true →
        filterContentArray kt [b] (some sid') (some f) claude
          = [sanitizeThinkingPart b])
    ∧ (∀ cached, isOurCachedSignature b (some sid') (some f) = false →
        getThinkingText b ≠ "" →
        f sid' (getThinkingText b) = some cached → 50 ≤ cached.length →
        filterContentArray kt [b] (some sid') (some f) claude
          = [sanitizeThinkingPart (restoreSig b cached)])
    ∧ (isOurCachedSignature b (some sid') (some f) = false →
        (getThinkingText b = "" ∨ f sid' (getThinkingText b) = none
          ∨ ∃ cached, f sid' (getThinkingText b) = some cached
              ∧ cached.length < 50) →
        filterContentArray kt [b] (some sid') (some f) claude = []) := by
  have hpath : (claude && !kt) = false := by
    rcases htrustpath with rfl | rfl <;> simp
  have hfc : filterContentArray kt [b] (some sid') (some f) claude
      = match trustFilterItem (some sid') (some f) b with
        | some b' => [b']
        | none => [] := by
    rw [filterContentArray, if_neg (by simp [hpath]), List.filterMap_cons]
    cases trustFilterItem (some sid') (some f) b <;> simp
  refine ⟨?_, ?_, ?_⟩
  · intro htr
    rw [hfc, trustFilterItem_trusted b _ _ (Or.inl hthink) htool htr]
  · intro cached htr htx hc hlen
    rw [hfc, trustFilterItem_untrusted b _ _ (Or.inl hthink) htool htr]
    have hne : cached ≠ "" := by
      intro h
      subst h
      have : ("" : String).length = 0 := rfl
      omega
    simp [hsid, htx, hc, hne, hlen]
  · intro htr hdrop
    rw [hfc, trustFilterItem_untrusted b _ _ (Or.inl hthink) htool htr]
    rcases hdrop with h | h | ⟨cached, hc, hlen⟩
    · simp [hsid, h]
    · simp [hsid, h, ite_self]
    · have hno : ¬(cached ≠ "" ∧ 50 ≤ cached.length) := by
        rintro ⟨-, h2⟩
        omega
      simp [hsid, hc, hno, ite_self]

/-- Witness for C8 at a concrete cache-trusted Anthropic thinking block. -/
theorem trustPolicy_keep_restore_drop_witness :
    filterContentArray false
        [Json.obj [("type", Json.str "thinking"), ("thinking", Json.str "t"),
          ("signature",
            Json.str "ssssssssssssssssssssssssssssssssssssssssssssssssssssssssssss")]]
        (some "sess")
        (some fun _ x =>
          if x = "t"
          then some "ssssssssssssssssssssssssssssssssssssssssssssssssssssssssssss"
          else none)
        false
      = [sanitizeThinkingPart
          (Json.obj [("type", Json.str "thinking"), ("thinking", Json.str "t"),
            ("signature",
              Json.str "ssssssssssssssssssssssssssssssssssssssssssssssssssssssssssss")])] :=
  (trustPolicy_keep_restore_drop false false "sess"
    (fun _ x =>
      if x = "t"
      then some "ssssssssssssssssssssssssssssssssssssssssssssssssssssssssssss"
      else none)
    (Json.obj [("type", Json.str "thinking"), ("thinking", Json.str "t"),
      ("signature",
        Json.str "ssssssssssssssssssssssssssssssssssssssssssssssssssssssssssss")])
    (Or.inl rfl) (by decide) (by decide) (by decide)).1 (by decide)

/-- C8 counterexample: a thinking block whose signature is the empty string
literally equals the cached value `""` for its exact text, yet the trust
path drops it — the JS `!partSignature` truthiness guard rejects the falsy
signature before the comparison, and the restoration path then rejects the
falsy/short cached value — so "every thinking block whose signature exactly
matches the cached signature for its exact text is kept in sanitized form"
is false as stated. -/
theorem emptySignature_cache_match_dropped :
    getSignature
        (Json.obj [("type", Json.str "thinking"), ("thinking", Json.str "t"),
                   ("signature", Json.str "")]) = some ""
    ∧ (fun _ _ => some "" : CacheFn) "sess"
        (getThinkingText
          (Json.obj [("type", Json.str "thinking"), ("thinking", Json.str "t"),
                     ("signature", Json.str "")])) = some ""
    ∧ filterContentArray false
        [Json.obj [("type", Json.str "thinking"), ("thinking", Json.str "t"),
                   ("signature", Json.str "")]]
        (some "sess") (some fun _ _ => some "") false = [] := by
  refine ⟨by decide, rfl, by decide⟩

/-!  ## C6 — a dual tool+thinking trailing block is trimmed (code bug)

`isToolBlock`'s doc comment states tool blocks must never be filtered, and
`filterContentArray` gives tool shape precedence, but
`removeTrailingThinkingBlocks` tests only `isThinkingPart`: a trailing
block that is both tool-shaped and thinking-shaped (and unsigned) is popped
from a producer turn under the non-Claude path. -/

/-- C6 failing input evaluated: the unsigned dual-shaped `tool_use` block at
the end of an assistant turn is removed by the trailing trim. -/
theorem toolBlock_trimmed_from_trailing_position :
    filterMessagesThinkingBlocks false
        [Json.obj [("role", Json.str "assistant"),
          ("content", Json.arr [Json.obj [("type", Json.str "tool_use"),
            ("id", Json.str "1"), ("thinking", Json.str "x")]])]]
        none none false
      = [Json.obj [("role", Json.str "assistant"), ("content", Json.arr [])]]
    ∧ isToolBlock (Json.obj [("type", Json.str "tool_use"), ("id", Json.str "1"),
        ("thinking", Json.str "x")]) = true := by
  exact ⟨by decide, by decide⟩

/-!  ## C9 — the pipeline can throw on a trailing null (code bug)

Every block-level property access is guarded except
`isThinkingPart(result[result.length - 1])` inside
`removeTrailingThinkingBlocks`; a literal `null` as the last filtered block
of a producer turn under the non-Claude path makes the JS code read
`null.type` and throw a TypeError. -/

/-- C9 failing input evaluated on the exception-aware model: the transform
aborts with the modelled TypeError instead of returning the null entry
unchanged. -/
theorem filterMessages_throws_on_trailing_null :
    filterMessagesThinkingBlocksE false
        [Json.obj [("role", Json.str "assistant"),
          ("content", Json.arr [Json.null])]]
        none none false = Except.error () := by
  rfl

/-!  ## C2 — tool pairing repair -/

@[simp] theorem contentBlocks_mkUserMessage (bs : List Json) :
    contentBlocks (mkUserMessage bs) = bs := by
  simp [contentBlocks, mkUserMessage, Json.getField]

@[simp] theorem useIdOfBlock_placeholder (id : String) :
    useIdOfBlock (mkPlaceholderResult id) = none := by
  simp [useIdOfBlock, mkPlaceholderResult, Json.getField]

@[simp] theorem resultIdOfBlock_placeholder (id : String) :
    resultIdOfBlock (mkPlaceholderResult id) = some id := by
  simp [resultIdOfBlock, mkPlaceholderResult, Json.getField]

@[simp] theorem msgToolUseIds_mkUserMessage (ids : List String) :
    msgToolUseIds (mkUserMessage (ids.map mkPlaceholderResult)) = [] := by
  rw [msgToolUseIds, contentBlocks_mkUserMessage]
  induction ids with
  | nil => rfl
  | cons i ids ih => simp [ih]

@[simp] theorem msgToolResultIds_mkUserMessage (ids : List String) :
    msgToolResultIds (mkUserMessage (ids.map mkPlaceholderResult)) = ids := by
  rw [msgToolResultIds, contentBlocks_mkUserMessage]
  induction ids with
  | nil => rfl
  | cons i ids ih => simp [ih]

@[simp] theorem filterMap_useId_placeholders (ids : List String) (cs : List Json) :
    (ids.map mkPlaceholderResult ++ cs).filterMap useIdOfBlock
      = cs.filterMap useIdOfBlock := by
  induction ids with
  | nil => rfl
  | cons i ids ih => simp [ih]

theorem filterMap_resultId_placeholders (ids : List String) (cs : List Json) :
    (ids.map mkPlaceholderResult ++ cs).filterMap resultIdOfBlock
      = ids ++ cs.filterMap resultIdOfBlock := by
  induction ids with
  | nil => rfl
  | cons i ids ih => simp [ih]

/-- `allToolUseIds` over a cons. -/
theorem allToolUseIds_cons (m : Json) (ms : List Json) :
    allToolUseIds (m :: ms) = msgToolUseIds m ++ allToolUseIds ms := by
  simp [allToolUseIds]

theorem allToolResultIds_cons (m : Json) (ms : List Json) :
    allToolResultIds (m :: ms) = msgToolResultIds m ++ allToolResultIds ms := by
  simp [allToolResultIds]

theorem msgToolUseIds_setContent {next : Json} {fsn : List (String × Json)}
    (hn : next = Json.obj fsn) (bs : List Json) :
    msgToolUseIds (next.setField "content" (Json.arr bs)) = bs.filterMap useIdOfBlock := by
  subst hn
  simp [msgToolUseIds, contentBlocks]

theorem msgToolResultIds_setContent {next : Json} {fsn : List (String × Json)}
    (hn : next = Json.obj fsn) (bs : List Json) :
    msgToolResultIds (next.setField "content" (Json.arr bs)) = bs.filterMap resultIdOfBlock := by
  subst hn
  simp [msgToolResultIds, contentBlocks]

/-- The repair walk never changes the set of issued tool-call
identifiers. -/
theorem allToolUseIds_fixLoop (O : List String) (ms : List Json) :
    allToolUseIds (fixLoop O ms) = allToolUseIds ms := by
  induction ms using fixLoop.induct O with
  | case1 => rw [fixLoop]
  | case2 m rest ids hids ih =>
      have hids' : (List.filter (fun id => O.contains id) (msgToolUseIds m)).isEmpty
          = true := hids
      rw [fixLoop, if_pos hids']
      simp [allToolUseIds_cons, ih]
  | case3 m ids hids =>
      have hids' : ¬(List.filter (fun id => O.contains id) (msgToolUseIds m)).isEmpty
          = true := hids
      rw [fixLoop, if_neg hids']
      simp [allToolUseIds_cons, allToolUseIds]
  | case4 m ids hids placeholders next rest hrole cs hc ih =>
      have hids' : ¬(List.filter (fun id => O.contains id) (msgToolUseIds m)).isEmpty
          = true := hids
      have hsome : (next.getField "role").isSome = true := by
        rw [beq_iff_eq.mp hrole]
        rfl
      obtain ⟨fsn, hn⟩ := Json.exists_obj_of_getField_isSome hsome
      have ih' : allToolUseIds (fixLoop O (next.setField "content"
            (Json.arr (List.map mkPlaceholderResult
              (List.filter (fun id => O.contains id) (msgToolUseIds m)) ++ cs)) :: rest))
          = allToolUseIds (next.setField "content"
            (Json.arr (List.map mkPlaceholderResult
              (List.filter (fun id => O.contains id) (msgToolUseIds m)) ++ cs)) :: rest) := ih
      have hnextuse : msgToolUseIds next = cs.filterMap useIdOfBlock := by
        subst hn
        simp [msgToolUseIds, contentBlocks, hc]
      rw [fixLoop, if_neg hids']
      simp only [hrole, hc, if_true]
      rw [allToolUseIds_cons, ih', allToolUseIds_cons, msgToolUseIds_setContent hn,
        filterMap_useId_placeholders, allToolUseIds_cons, allToolUseIds_cons, hnextuse]
  | case5 m ids hids next rest hrole hnc ih =>
      have hids2 : (List.filter (fun id => O.contains id) (msgToolUseIds m)).isEmpty
          = false := by
        cases h : (List.filter (fun id => O.contains id) (msgToolUseIds m)).isEmpty
        · rfl
        · exact absurd h hids
      have ih' : allToolUseIds (fixLoop O (next :: rest))
          = allToolUseIds (next :: rest) := ih
      have hred : fixLoop O (m :: next :: rest)
          = m :: mkUserMessage (List.map mkPlaceholderResult
              (List.filter (fun id => O.contains id) (msgToolUseIds m)))
            :: fixLoop O (next :: rest) := by
        rw [fixLoop]
        simp only [hids2, Bool.false_eq_true, if_false, if_pos hrole]
      rw [hred]
      simp [allToolUseIds_cons, ih', msgToolUseIds_mkUserMessage]
  | case6 m ids hids next rest hrole ih =>
      have hids2 : (List.filter (fun id => O.contains id) (msgToolUseIds m)).isEmpty
          = false := by
        cases h : (List.filter (fun id => O.contains id) (msgToolUseIds m)).isEmpty
        · rfl
        · exact absurd h hids
      have hrole2 : (next.getField "role" == some (Json.str "user")) = false := by
        cases h : (next.getField "role" == some (Json.str "user"))
        · rfl
        · exact absurd h hrole
      have ih' : allToolUseIds (fixLoop O (next :: rest))
          = allToolUseIds (next :: rest) := ih
      have hred : fixLoop O (m :: next :: rest)
          = m :: mkUserMessage (List.map mkPlaceholderResult
              (List.filter (fun id => O.contains id) (msgToolUseIds m)))
            :: fixLoop O (next :: rest) := by
        rw [fixLoop]
        simp only [hids2, hrole2, Bool.false_eq_true, if_false]
      rw [hred]
      simp [allToolUseIds_cons, ih', msgToolUseIds_mkUserMessage]

/-- The repair walk keeps the head message of any conversation. -/
theorem fixLoop_cons_head (O : List String) (x : Json) (rest : List Json) :
    ∃ tail, fixLoop O (x :: rest) = x :: tail := by
  rw [fixLoop]
  split
  · exact ⟨_, rfl⟩
  · split
    · exact ⟨_, rfl⟩
    · split
      · split
        · exact ⟨_, rfl⟩
        · exact ⟨_, rfl⟩
      · exact ⟨_, rfl⟩

/-- Existing tool-result correlation identifiers survive the repair walk. -/
theorem mem_allToolResultIds_fixLoop (O : List String) (ms : List Json)
    (x : String) :
    x ∈ allToolResultIds ms → x ∈ allToolResultIds (fixLoop O ms) := by
  induction ms using fixLoop.induct O with
  | case1 =>
      intro hx
      rw [fixLoop]
      exact hx
  | case2 m rest ids hids ih =>
      intro hx
      have hids' : (List.filter (fun id => O.contains id) (msgToolUseIds m)).isEmpty
          = true := hids
      rw [fixLoop, if_pos hids', allToolResultIds_cons]
      rw [allToolResultIds_cons] at hx
      rcases List.mem_append.mp hx with h | h
      · exact List.mem_append_left _ h
      · exact List.mem_append_right _ (ih h)
  | case3 m ids hids =>
      intro hx
      have hids' : ¬(List.filter (fun id => O.contains id) (msgToolUseIds m)).isEmpty
          = true := hids
      rw [fixLoop, if_neg hids', allToolResultIds_cons]
      rw [allToolResultIds_cons] at hx
      rcases List.mem_append.mp hx with h | h
      · exact List.mem_append_left _ h
      · rw [allToolResultIds] at h
        simp at h
  | case4 m ids hids placeholders next rest hrole cs hc ih =>
      intro hx
      have hids' : ¬(List.filter (fun id => O.contains id) (msgToolUseIds m)).isEmpty
          = true := hids
      have hsome : (next.getField "role").isSome = true := by
        rw [beq_iff_eq.mp hrole]
        rfl
      obtain ⟨fsn, hn⟩ := Json.exists_obj_of_getField_isSome hsome
      have ih' : x ∈ allToolResultIds (next.setField "content"
            (Json.arr (List.map mkPlaceholderResult
              (List.filter (fun id => O.contains id) (msgToolUseIds m)) ++ cs)) :: rest)
          → x ∈ allToolResultIds (fixLoop O (next.setField "content"
            (Json.arr (List.map mkPlaceholderResult
              (List.filter (fun id => O.contains id) (msgToolUseIds m)) ++ cs)) :: rest)) := ih
      have hnextres : msgToolResultIds next = cs.filterMap resultIdOfBlock := by
        subst hn
        simp [msgToolResultIds, contentBlocks, hc]
      have hmodres : msgToolResultIds (next.setField "content"
            (Json.arr (List.map mkPlaceholderResult
              (List.filter (fun id => O.contains id) (msgToolUseIds m)) ++ cs)))
          = (List.filter (fun id => O.contains id) (msgToolUseIds m))
            ++ cs.filterMap resultIdOfBlock := by
        rw [msgToolResultIds_setContent hn, filterMap_resultId_placeholders]
      rw [fixLoop, if_neg hids']
      simp only [hrole, hc, if_true]
      rw [allToolResultIds_cons]
      rw [allToolResultIds_cons, allToolResultIds_cons] at hx
      rcases List.mem_append.mp hx with h | h
      · exact List.mem_append_left _ h
      · refine List.mem_append_right _ (ih' ?_)
        rw [allToolResultIds_cons, hmodres]
        rcases List.mem_append.mp h with h2 | h2
        · rw [hnextres] at h2
          exact List.mem_append_left _ (List.mem_append_right _ h2)
        · exact List.mem_append_right _ h2
  | case5 m ids hids next rest hrole hnc ih =>
      intro hx
      have hids2 : (List.filter (fun id => O.contains id) (msgToolUseIds m)).isEmpty
          = false := by
        cases h : (List.filter (fun id => O.contains id) (msgToolUseIds m)).isEmpty
        · rfl
        · exact absurd h hids
      have ih' : x ∈ allToolResultIds (next :: rest)
          → x ∈ allToolResultIds (fixLoop O (next :: rest)) := ih
      have hred : fixLoop O (m :: next :: rest)
          = m :: mkUserMessage (List.map mkPlaceholderResult
              (List.filter (fun id => O.contains id) (msgToolUseIds m)))
            :: fixLoop O (next :: rest) := by
        rw [fixLoop]
        simp only [hids2, Bool.false_eq_true, if_false, if_pos hrole]
      rw [hred, allToolResultIds_cons, allToolResultIds_cons]
      rw [allToolResultIds_cons] at hx
      rcases List.mem_append.mp hx with h | h
      · exact List.mem_append_left _ h
      · exact List.mem_append_right _ (List.mem_append_right _ (ih' h))
  | case6 m ids hids next rest hrole ih =>
      intro hx
      have hids2 : (List.filter (fun id => O.contains id) (msgToolUseIds m)).isEmpty
          = false := by
        cases h : (List.filter (fun id => O.contains id) (msgToolUseIds m)).isEmpty
        · rfl
        · exact absurd h hids
      have hrole2 : (next.getField "role" == some (Json.str "user")) = false := by
        cases h : (next.getField "role" == some (Json.str "user"))
        · rfl
        · exact absurd h hrole
      have ih' : x ∈ allToolResultIds (next :: rest)
          → x ∈ allToolResultIds (fixLoop O (next :: rest)) := ih
      have hred : fixLoop O (m :: next :: rest)
          = m :: mkUserMessage (List.map mkPlaceholderResult
              (List.filter (fun id => O.contains id) (msgToolUseIds m)))
            :: fixLoop O (next :: rest) := by
        rw [fixLoop]
        simp only [hids2, hrole2, Bool.false_eq_true, if_false]
      rw [hred, allToolResultIds_cons, allToolResultIds_cons]
      rw [allToolResultIds_cons] at hx
      rcases List.mem_append.mp hx with h | h
      · exact List.mem_append_left _ h
      · exact List.mem_append_right _ (List.mem_append_right _ (ih' h))

/-- Every orphaned call identifier present in the conversation receives a
synthesized placeholder result in the repaired conversation. -/
theorem orphan_gets_placeholder (O : List String) (ms : List Json) (id : String)
    (hidO : id ∈ O) :
    id ∈ allToolUseIds ms →
      ∃ m ∈ fixLoop O ms, mkPlaceholderResult id ∈ contentBlocks m := by
  induction ms using fixLoop.induct O with
  | case1 =>
      intro h
      rw [allToolUseIds] at h
      simp at h
  | case2 m rest ids hids ih =>
      intro h
      have hids' : (List.filter (fun id => O.contains id) (msgToolUseIds m)).isEmpty
          = true := hids
      rw [allToolUseIds_cons] at h
      rcases List.mem_append.mp h with h | h
      · exfalso
        have hmem : id ∈ List.filter (fun i => O.contains i) (msgToolUseIds m) :=
          List.mem_filter.mpr ⟨h, List.elem_iff.mpr hidO⟩
        rw [List.isEmpty_iff.mp hids'] at hmem
        cases hmem
      · obtain ⟨m', hm', hpm⟩ := ih h
        refine ⟨m', ?_, hpm⟩
        rw [fixLoop, if_pos hids']
        exact List.mem_cons_of_mem m hm'
  | case3 m ids hids =>
      intro h
      have hids' : ¬(List.filter (fun id => O.contains id) (msgToolUseIds m)).isEmpty
          = true := hids
      rw [allToolUseIds_cons] at h
      rcases List.mem_append.mp h with h | h
      · have hmem : id ∈ List.filter (fun i => O.contains i) (msgToolUseIds m) :=
          List.mem_filter.mpr ⟨h, List.elem_iff.mpr hidO⟩
        refine ⟨mkUserMessage ((List.filter (fun i => O.contains i)
          (msgToolUseIds m)).map mkPlaceholderResult), ?_, ?_⟩
        · rw [fixLoop, if_neg hids']
          exact List.mem_cons_of_mem m (List.mem_cons_self _ _)
        · rw [contentBlocks_mkUserMessage]
          exact List.mem_map_of_mem mkPlaceholderResult hmem
      · rw [allToolUseIds] at h
        simp at h
  | case4 m ids hids placeholders next rest hrole cs hc ih =>
      intro h
      have hids' : ¬(List.filter (fun id => O.contains id) (msgToolUseIds m)).isEmpty
          = true := hids
      have hsome : (next.getField "role").isSome = true := by
        rw [beq_iff_eq.mp hrole]
        rfl
      obtain ⟨fsn, hn⟩ := Json.exists_obj_of_getField_isSome hsome
      have hred : fixLoop O (m :: next :: rest)
          = m :: fixLoop O (next.setField "content"
              (Json.arr (List.map mkPlaceholderResult
                (List.filter (fun i => O.contains i) (msgToolUseIds m)) ++ cs)) :: rest) := by
        rw [fixLoop, if_neg hids']
        simp only [hrole, hc, if_true]
      have hmoduse : msgToolUseIds (next.setField "content"
            (Json.arr (List.map mkPlaceholderResult
              (List.filter (fun i => O.contains i) (msgToolUseIds m)) ++ cs)))
          = msgToolUseIds next := by
        rw [msgToolUseIds_setContent hn, filterMap_useId_placeholders]
        subst hn
        simp [msgToolUseIds, contentBlocks, hc]
      rw [allToolUseIds_cons] at h
      rcases List.mem_append.mp h with h | h
      · -- the orphan is issued by the head: its placeholder is prepended to next
        have hmem : id ∈ List.filter (fun i => O.contains i) (msgToolUseIds m) :=
          List.mem_filter.mpr ⟨h, List.elem_iff.mpr hidO⟩
        obtain ⟨tail, htail⟩ := fixLoop_cons_head O (next.setField "content"
          (Json.arr (List.map mkPlaceholderResult
            (List.filter (fun i => O.contains i) (msgToolUseIds m)) ++ cs))) rest
        refine ⟨next.setField "content"
          (Json.arr (List.map mkPlaceholderResult
            (List.filter (fun i => O.contains i) (msgToolUseIds m)) ++ cs)), ?_, ?_⟩
        · rw [hred, htail]
          exact List.mem_cons_of_mem m (List.mem_cons_self _ _)
        · have : contentBlocks (next.setField "content"
              (Json.arr (List.map mkPlaceholderResult
                (List.filter (fun i => O.contains i) (msgToolUseIds m)) ++ cs)))
              = List.map mkPlaceholderResult
                  (List.filter (fun i => O.contains i) (msgToolUseIds m)) ++ cs := by
            subst hn
            simp [contentBlocks]
          rw [this]
          exact List.mem_append_left _ (List.mem_map_of_mem mkPlaceholderResult hmem)
      · -- the orphan is issued later: recurse
        have h2 : id ∈ allToolUseIds (next.setField "content"
            (Json.arr (List.map mkPlaceholderResult
              (List.filter (fun i => O.contains i) (msgToolUseIds m)) ++ cs)) :: rest) := by
          rw [allToolUseIds_cons, hmoduse]
          rw [allToolUseIds_cons] at h
          exact h
        obtain ⟨m', hm', hpm⟩ := ih h2
        refine ⟨m', ?_, hpm⟩
        rw [hred]
        exact List.mem_cons_of_mem m hm'
  | case5 m ids hids next rest hrole hnc ih =>
      intro h
      have hids2 : (List.filter (fun i => O.contains i) (msgToolUseIds m)).isEmpty
          = false := by
        cases hx : (List.filter (fun i => O.contains i) (msgToolUseIds m)).isEmpty
        · rfl
        · exact absurd hx hids
      have hred : fixLoop O (m :: next :: rest)
          = m :: mkUserMessage (List.map mkPlaceholderResult
              (List.filter (fun i => O.contains i) (msgToolUseIds m)))
            :: fixLoop O (next :: rest) := by
        rw [fixLoop]
        simp only [hids2, Bool.false_eq_true, if_false, if_pos hrole]
      rw [allToolUseIds_cons] at h
      rcases List.mem_append.mp h with h | h
      · have hmem : id ∈ List.filter (fun i => O.contains i) (msgToolUseIds m) :=
          List.mem_filter.mpr ⟨h, List.elem_iff.mpr hidO⟩
        refine ⟨mkUserMessage ((List.filter (fun i => O.contains i)
          (msgToolUseIds m)).map mkPlaceholderResult), ?_, ?_⟩
        · rw [hred]
          exact List.mem_cons_of_mem m (List.mem_cons_self _ _)
        · rw [contentBlocks_mkUserMessage]
          exact List.mem_map_of_mem mkPlaceholderResult hmem
      · obtain ⟨m', hm', hpm⟩ := ih h
        refine ⟨m', ?_, hpm⟩
        rw [hred]
        exact List.mem_cons_of_mem m (List.mem_cons_of_mem _ hm')
  | case6 m ids hids next rest hrole ih =>
      intro h
      have hids2 : (List.filter (fun i => O.contains i) (msgToolUseIds m)).isEmpty
          = false := by
        cases hx : (List.filter (fun i => O.contains i) (msgToolUseIds m)).isEmpty
        · rfl
        · exact absurd hx hids
      have hrole2 : (next.getField "role" == some (Json.str "user")) = false := by
        cases hx : (next.getField "role" == some (Json.str "user"))
        · rfl
        · exact absurd hx hrole
      have hred : fixLoop O (m :: next :: rest)
          = m :: mkUserMessage (List.map mkPlaceholderResult
              (List.filter (fun i => O.contains i) (msgToolUseIds m)))
            :: fixLoop O (next :: rest) := by
        rw [fixLoop]
        simp only [hids2, hrole2, Bool.false_eq_true, if_false]
      rw [allToolUseIds_cons] at h
      rcases List.mem_append.mp h with h | h
      · have hmem : id ∈ List.filter (fun i => O.contains i) (msgToolUseIds m) :=
          List.mem_filter.mpr ⟨h, List.elem_iff.mpr hidO⟩
        refine ⟨mkUserMessage ((List.filter (fun i => O.contains i)
          (msgToolUseIds m)).map mkPlaceholderResult), ?_, ?_⟩
        · rw [hred]
          exact List.mem_cons_of_mem m (List.mem_cons_self _ _)
        · rw [contentBlocks_mkUserMessage]
          exact List.mem_map_of_mem mkPlaceholderResult hmem
      · obtain ⟨m', hm', hpm⟩ := ih h
        refine ⟨m', ?_, hpm⟩
        rw [hred]
        exact List.mem_cons_of_mem m (List.mem_cons_of_mem _ hm')

theorem placeholder_mem_resultIds {m : Json} {id : String}
    (h : mkPlaceholderResult id ∈ contentBlocks m) : id ∈ msgToolResultIds m := by
  rw [msgToolResultIds]
  exact List.mem_filterMap.mpr ⟨_, h, resultIdOfBlock_placeholder id⟩

/-- C2 (amended): after `validateAndFixClaudeToolPairing` there are zero
orphaned tool calls, and every orphaned call identifier of the input
receives a synthesized "tool response unavailable" error result correlated
by its identifier.  (Orphaned tool *results* are not repaired — see the
counterexample.) -/
theorem validateAndFix_pairs_all_calls (msgs : List Json) :
    findOrphanedToolUseIds (validateAndFixClaudeToolPairing msgs) = []
    ∧ ∀ id ∈ findOrphanedToolUseIds msgs,
        ∃ m ∈ validateAndFixClaudeToolPairing msgs,
          mkPlaceholderResult id ∈ contentBlocks m := by
  by_cases h : (findOrphanedToolUseIds msgs).isEmpty = true
  · rw [validateAndFixClaudeToolPairing, if_pos h]
    have hnil := List.isEmpty_iff.mp h
    refine ⟨hnil, ?_⟩
    intro id hid
    rw [hnil] at hid
    cases hid
  · rw [validateAndFixClaudeToolPairing, if_neg h, fixClaudeToolPairing]
    constructor
    · rw [findOrphanedToolUseIds, List.filter_eq_nil_iff]
      intro id hid
      rw [allToolUseIds_fixLoop] at hid
      intro hcontra
      have hnotmem : id ∉ allToolResultIds
          (fixLoop (findOrphanedToolUseIds msgs) msgs) := by
        intro hmem
        have h2 : (allToolResultIds
            (fixLoop (findOrphanedToolUseIds msgs) msgs)).contains id = true :=
          List.elem_iff.mpr hmem
        rw [h2] at hcontra
        simp at hcontra
      apply hnotmem
      by_cases ho : id ∈ findOrphanedToolUseIds msgs
      · obtain ⟨m, hm, hpm⟩ := orphan_gets_placeholder _ msgs id ho hid
        exact List.mem_flatMap.mpr ⟨m, hm, placeholder_mem_resultIds hpm⟩
      · have hres : id ∈ allToolResultIds msgs := by
          by_contra hcon
          apply ho
          rw [findOrphanedToolUseIds, List.mem_filter]
          refine ⟨hid, ?_⟩
          have hcc : (allToolResultIds msgs).contains id = false := by
            cases hcc : (allToolResultIds msgs).contains id
            · rfl
            · exact absurd (List.elem_iff.mp hcc) hcon
          rw [hcc]
          rfl
        exact mem_allToolResultIds_fixLoop _ msgs id hres
    · intro id hid
      have hid' : id ∈ allToolUseIds msgs := (List.mem_filter.mp hid).1
      exact orphan_gets_placeholder _ msgs id hid hid'

/-- Witness for C2 (amended) at the concrete orphaned-call conversation of
the repository's test suite. -/
theorem validateAndFix_pairs_all_calls_witness :
    findOrphanedToolUseIds (validateAndFixClaudeToolPairing
      [Json.obj [("role", Json.str "assistant"),
        ("content", Json.arr [Json.obj [("type", Json.str "tool_use"),
          ("id", Json.str "tool-1"), ("name", Json.str "read")]])],
       Json.obj [("role", Json.str "user"),
        ("content", Json.arr [Json.obj [("type", Json.str "text"),
          ("text", Json.str "continue")]])]]) = []
    ∧ ∃ m ∈ validateAndFixClaudeToolPairing
        [Json.obj [("role", Json.str "assistant"),
          ("content", Json.arr [Json.obj [("type", Json.str "tool_use"),
            ("id", Json.str "tool-1"), ("name", Json.str "read")]])],
         Json.obj [("role", Json.str "user"),
          ("content", Json.arr [Json.obj [("type", Json.str "text"),
            ("text", Json.str "continue")]])]],
        mkPlaceholderResult "tool-1" ∈ contentBlocks m :=
  ⟨(validateAndFix_pairs_all_calls
      [Json.obj [("role", Json.str "assistant"),
        ("content", Json.arr [Json.obj [("type", Json.str "tool_use"),
          ("id", Json.str "tool-1"), ("name", Json.str "read")]])],
       Json.obj [("role", Json.str "user"),
        ("content", Json.arr [Json.obj [("type", Json.str "text"),
          ("text", Json.str "continue")]])]]).1,
   (validateAndFix_pairs_all_calls
      [Json.obj [("role", Json.str "assistant"),
        ("content", Json.arr [Json.obj [("type", Json.str "tool_use"),
          ("id", Json.str "tool-1"), ("name", Json.str "read")]])],
       Json.obj [("role", Json.str "user"),
        ("content", Json.arr [Json.obj [("type", Json.str "text"),
          ("text", Json.str "continue")]])]]).2 "tool-1" (by decide)⟩

/-- C2 counterexample: an orphaned tool **result** (a `tool_result` whose
identifier matches no call) survives the repair untouched, so
`validate(repair(conversation)).orphanedResults` is not empty for all
inputs as the claim states. -/
theorem validateAndFix_orphaned_result_remains :
    findOrphanedToolResultIds (validateAndFixClaudeToolPairing
      [Json.obj [("role", Json.str "user"),
        ("content", Json.arr [Json.obj [("type", Json.str "tool_result"),
          ("tool_use_id", Json.str "ghost")]])]]) = ["ghost"] := by
  decide

/-!  ## C10 — DCP compatibility invariant -/

theorem fixDcpMessage_nonobject (m : Json)
    (h : (m.truthy && m.isObjectType) = false) : fixDcpMessage m = m := by
  simp only [fixDcpMessage, h, Bool.not_false, if_true]

theorem fixDcpMessage_nonassistant (m : Json)
    (h : m.getField "role" ≠ some (Json.str "assistant")) : fixDcpMessage m = m := by
  cases hobj : (m.truthy && m.isObjectType) with
  | false => exact fixDcpMessage_nonobject m hobj
  | true =>
      simp only [fixDcpMessage, hobj, Bool.not_true, Bool.false_eq_true, if_false,
        bne_iff_ne, ne_eq, h, not_false_eq_true, if_true]

theorem fixDcpMessage_nokey (m : Json) (h : dcpContentKey m = none) :
    fixDcpMessage m = m := by
  cases hobj : (m.truthy && m.isObjectType) with
  | false => exact fixDcpMessage_nonobject m hobj
  | true =>
      by_cases hrole : m.getField "role" = some (Json.str "assistant")
      · simp only [fixDcpMessage, hobj, Bool.not_true, Bool.false_eq_true, if_false,
          hrole, bne_self_eq_false, h]
      · exact fixDcpMessage_nonassistant m hrole

theorem fixDcpMessage_keyed_nonarr (m : Json) (k : String)
    (hk : dcpContentKey m = some k)
    (hv : ∀ cs, m.getField k ≠ some (Json.arr cs)) :
    fixDcpMessage m = m := by
  cases hobj : (m.truthy && m.isObjectType) with
  | false => exact fixDcpMessage_nonobject m hobj
  | true =>
      by_cases hrole : m.getField "role" = some (Json.str "assistant")
      · cases hval : m.getField k with
        | none =>
            simp only [fixDcpMessage, hobj, Bool.not_true, Bool.false_eq_true, if_false,
              hrole, bne_self_eq_false, hk, hval]
        | some v =>
            cases v with
            | arr cs => exact absurd hval (hv cs)
            | null =>
                simp only [fixDcpMessage, hobj, Bool.not_true, Bool.false_eq_true, if_false,
                  hrole, bne_self_eq_false, hk, hval]
            | bool b =>
                simp only [fixDcpMessage, hobj, Bool.not_true, Bool.false_eq_true, if_false,
                  hrole, bne_self_eq_false, hk, hval]
            | num n =>
                simp only [fixDcpMessage, hobj, Bool.not_true, Bool.false_eq_true, if_false,
                  hrole, bne_self_eq_false, hk, hval]
            | str s =>
                simp only [fixDcpMessage, hobj, Bool.not_true, Bool.false_eq_true, if_false,
                  hrole, bne_self_eq_false, hk, hval]
            | obj fs =>
                simp only [fixDcpMessage, hobj, Bool.not_true, Bool.false_eq_true, if_false,
                  hrole, bne_self_eq_false, hk, hval]
      · exact fixDcpMessage_nonassistant m hrole

theorem fixDcpMessage_keyed_nil (m : Json) (k : String)
    (hk : dcpContentKey m = some k)
    (hval : m.getField k = some (Json.arr [])) :
    fixDcpMessage m = m := by
  cases hobj : (m.truthy && m.isObjectType) with
  | false => exact fixDcpMessage_nonobject m hobj
  | true =>
      by_cases hrole : m.getField "role" = some (Json.str "assistant")
      · simp only [fixDcpMessage, hobj, Bool.not_true, Bool.false_eq_true, if_false,
          hrole, bne_self_eq_false, hk, hval]
      · exact fixDcpMessage_nonassistant m hrole

theorem fixDcpMessage_keyed_thinking (m : Json) (k : String) (b : Json) (bs : List Json)
    (hk : dcpContentKey m = some k)
    (hval : m.getField k = some (Json.arr (b :: bs)))
    (hb : isThinkingBlock b = true) :
    fixDcpMessage m = m := by
  cases hobj : (m.truthy && m.isObjectType) with
  | false => exact fixDcpMessage_nonobject m hobj
  | true =>
      by_cases hrole : m.getField "role" = some (Json.str "assistant")
      · simp only [fixDcpMessage, hobj, Bool.not_true, Bool.false_eq_true, if_false,
          hrole, bne_self_eq_false, hk, hval, hb, if_true]
      · exact fixDcpMessage_nonassistant m hrole

theorem fixDcpMessage_keyed_fix (m : Json) (k : String) (b : Json) (bs : List Json)
    (hrole : m.getField "role" = some (Json.str "assistant"))
    (hk : dcpContentKey m = some k)
    (hval : m.getField k = some (Json.arr (b :: bs)))
    (hb : isThinkingBlock b = false) :
    fixDcpMessage m =
      m.setField k (Json.arr (DCP_SYNTHETIC_REDACTED_THINKING :: b :: bs)) := by
  obtain ⟨fs, rfl⟩ : ∃ fs, m = Json.obj fs := by
    cases m <;> simp [Json.getField] at hrole ⊢
  simp only [fixDcpMessage, Json.truthy, Json.isObjectType, Bool.and_self,
    Bool.not_true, Bool.false_eq_true, if_false, hrole, bne_self_eq_false,
    hk, hval, hb, if_false]

theorem fixDcpMessage_thinking_first (m : Json) (k : String)
    (hrole : m.getField "role" = some (Json.str "assistant"))
    (hk : dcpContentKey m = some k) :
    ∀ cs, (fixDcpMessage m).getField k = some (Json.arr cs) → cs ≠ [] →
      ∃ b bs, cs = b :: bs ∧ isThinkingBlock b = true := by
  intro cs hcs hne
  obtain ⟨fs, rfl⟩ : ∃ fs, m = Json.obj fs := by
    cases m <;> simp [Json.getField] at hrole ⊢
  cases hval : (Json.obj fs).getField k with
  | none =>
      rw [fixDcpMessage_keyed_nonarr _ k hk (by intro cs' hcs'; rw [hval] at hcs'; cases hcs'),
        hval] at hcs
      cases hcs
  | some v =>
      cases v with
      | arr ca =>
          cases ca with
          | nil =>
              rw [fixDcpMessage_keyed_nil _ k hk hval, hval] at hcs
              cases hcs
              exact absurd rfl hne
          | cons b bs =>
              cases hb : isThinkingBlock b with
              | true =>
                  rw [fixDcpMessage_keyed_thinking _ k b bs hk hval hb, hval] at hcs
                  cases hcs
                  exact ⟨b, bs, rfl, hb⟩
              | false =>
                  rw [fixDcpMessage_keyed_fix _ k b bs hrole hk hval hb,
                    Json.getField_setField_self] at hcs
                  cases hcs
                  exact ⟨DCP_SYNTHETIC_REDACTED_THINKING, b :: bs, rfl, by decide⟩
      | null =>
          rw [fixDcpMessage_keyed_nonarr _ k hk
            (by intro cs' hcs'; rw [hval] at hcs'; cases hcs'), hval] at hcs
          cases hcs
      | bool bb =>
          rw [fixDcpMessage_keyed_nonarr _ k hk
            (by intro cs' hcs'; rw [hval] at hcs'; cases hcs'), hval] at hcs
          cases hcs
      | num n =>
          rw [fixDcpMessage_keyed_nonarr _ k hk
            (by intro cs' hcs'; rw [hval] at hcs'; cases hcs'), hval] at hcs
          cases hcs
      | str s =>
          rw [fixDcpMessage_keyed_nonarr _ k hk
            (by intro cs' hcs'; rw [hval] at hcs'; cases hcs'), hval] at hcs
          cases hcs
      | obj fs' =>
          rw [fixDcpMessage_keyed_nonarr _ k hk
            (by intro cs' hcs'; rw [hval] at hcs'; cases hcs'), hval] at hcs
          cases hcs

/-- C10 (amended): `fixDcpSyntheticMessages` is a per-message map that leaves
non-object entries, non-assistant messages, messages with no truthy
content/parts value, messages whose selected value is not an array or is
empty, and selected arrays already starting with a thinking block
unchanged; when it modifies a message the only change is prepending the
fixed `redacted_thinking` sentinel to the selected array; and every
assistant message in the output whose *selected* array (content before
parts, by truthiness) is non-empty begins with a thinking or
redacted_thinking block.  (The claim's "content/parts array" phrasing
fails for the unselected array — see the counterexample.) -/
theorem fixDcp_invariants (msgs : List Json) :
    fixDcpSyntheticMessages msgs = msgs.map fixDcpMessage
    ∧ (fixDcpSyntheticMessages msgs).length = msgs.length
    ∧ ∀ m : Json,
      (((m.truthy && m.isObjectType) = false → fixDcpMessage m = m)
      ∧ (m.getField "role" ≠ some (Json.str "assistant") → fixDcpMessage m = m)
      ∧ (dcpContentKey m = none → fixDcpMessage m = m)
      ∧ (∀ k, dcpContentKey m = some k →
          ((∀ cs, m.getField k ≠ some (Json.arr cs)) → fixDcpMessage m = m)
          ∧ (m.getField k = some (Json.arr []) → fixDcpMessage m = m)
          ∧ (∀ b bs, m.getField k = some (Json.arr (b :: bs)) →
              (isThinkingBlock b = true → fixDcpMessage m = m)
              ∧ (isThinkingBlock b = false →
                  m.getField "role" = some (Json.str "assistant") →
                  fixDcpMessage m =
                    m.setField k (Json.arr (DCP_SYNTHETIC_REDACTED_THINKING :: b :: bs))))
          ∧ (∀ cs, m.getField "role" = some (Json.str "assistant") →
              (fixDcpMessage m).getField k = some (Json.arr cs) → cs ≠ [] →
              ∃ b bs, cs = b :: bs ∧ isThinkingBlock b = true))) := by
  refine ⟨rfl, by simp [fixDcpSyntheticMessages], ?_⟩
  intro m
  refine ⟨fixDcpMessage_nonobject m, fixDcpMessage_nonassistant m,
    fixDcpMessage_nokey m, ?_⟩
  intro k hk
  refine ⟨fixDcpMessage_keyed_nonarr m k hk, fixDcpMessage_keyed_nil m k hk, ?_, ?_⟩
  · intro b bs hval
    exact ⟨fixDcpMessage_keyed_thinking m k b bs hk hval,
      fun hb hrole => fixDcpMessage_keyed_fix m k b bs hrole hk hval hb⟩
  · intro cs hrole hcs hne
    exact fixDcpMessage_thinking_first m k hrole hk cs hcs hne

/-- Witness for C10 (amended): a DCP-synthetic assistant message with a
text-only content array gets the sentinel prepended. -/
theorem fixDcp_invariants_witness :
    fixDcpMessage (Json.obj [("role", Json.str "assistant"),
        ("content", Json.arr [Json.obj [("type", Json.str "text"),
          ("text", Json.str "hi")]])])
      = (Json.obj [("role", Json.str "assistant"),
          ("content", Json.arr [Json.obj [("type", Json.str "text"),
            ("text", Json.str "hi")]])]).setField "content"
          (Json.arr [DCP_SYNTHETIC_REDACTED_THINKING,
            Json.obj [("type", Json.str "text"), ("text", Json.str "hi")]]) :=
  ((((fixDcp_invariants []).2.2 (Json.obj [("role", Json.str "assistant"),
      ("content", Json.arr [Json.obj [("type", Json.str "text"),
        ("text", Json.str "hi")]])])).2.2.2 "content" (by decide)).2.2.1
    (Json.obj [("type", Json.str "text"), ("text", Json.str "hi")]) [] (by decide)).2
    (by decide) (by decide)

/-- C10 counterexample: the key selection tests truthiness of `content`
before `parts`, so an assistant message with a truthy non-array `content`
and a non-empty `parts` array is returned unchanged, and its `parts` array
does not begin with a thinking block — refuting the claim that every
assistant message in the output with a non-empty content/parts array
begins with one. -/
theorem fixDcp_content_shadows_parts :
    fixDcpSyntheticMessages
        [Json.obj [("role", Json.str "assistant"), ("content", Json.str "hi"),
          ("parts", Json.arr [Json.obj [("type", Json.str "text"),
            ("text", Json.str "x")]])]]
      = [Json.obj [("role", Json.str "assistant"), ("content", Json.str "hi"),
          ("parts", Json.arr [Json.obj [("type", Json.str "text"),
            ("text", Json.str "x")]])]]
    ∧ isThinkingBlock (Json.obj [("type", Json.str "text"),
        ("text", Json.str "x")]) = false := by
  decide
